import Mathlib

/-!
# Verification of the paymentTracker billing-period reconciliation engine

This file is a shallow embedding, in Lean 4, of the core logic of the
`paymentTracker` Go program (`main.go`): proleptic-Gregorian wall-clock date
arithmetic as performed by Go's `time` package in a fixed location
(`time.Date`, `AddDate`, `Year`/`Month`/`Day` accessors, field normalization),
the amount-extraction regex, the payment aggregation, the "Total Remaining"
summary reconciliation against the external event store, the 11-month forward
window driver, and the environment-variable configuration loading.

Instants are modelled as `Int` seconds relative to the Unix epoch in the
configured zone's wall-clock (the program performs all arithmetic in a single
`time.Location`; zone-offset transitions are outside the modelled core, which
the specification also treats as pure wall-clock arithmetic).  Civil fields
are recovered with the standard closed-form proleptic-Gregorian conversion
(the same normalization behaviour as Go's `time.Date`, e.g. "October 32
converts to November 1", linear in the day argument, month normalized first).

Monetary amounts are modelled as exact rationals `ℚ`; every amount actually
exercised by the claims below is an integral number of currency units, where
IEEE-754 `float64` (used by the Go code) is exact, so the model and the code
agree on those values.
-/

namespace PayTrack

/-! ## Calendar arithmetic -/

/-- Leap year predicate of the proleptic Gregorian calendar. -/
def isLeap (y : Int) : Bool := (y % 4 == 0 && y % 100 != 0) || y % 400 == 0

/-- Length in days of month `m` (1–12) of year `y`. -/
def monthLen (y m : Int) : Int :=
  if m = 1 then 31 else if m = 2 then (if isLeap y then 29 else 28)
  else if m = 3 then 31 else if m = 4 then 30 else if m = 5 then 31
  else if m = 6 then 30 else if m = 7 then 31 else if m = 8 then 31
  else if m = 9 then 30 else if m = 10 then 31 else if m = 11 then 30 else 31

/-- Days since 1970-01-01 of the civil date `(y, m, d)`, for `m ∈ [1,12]` and
arbitrary `d` (linear in `d`, matching Go's day normalization).  Standard
closed-form era-based conversion. -/
def daysFromCivil (y m d : Int) : Int :=
  let y' := if m ≤ 2 then y - 1 else y
  let era := y' / 400
  let yoe := y' - era * 400
  let mp := if m > 2 then m - 3 else m + 9
  let doy := (153 * mp + 2) / 5 + d - 1
  let doe := yoe * 365 + yoe / 4 - yoe / 100 + doy
  era * 146097 + doe - 719468

/-- Normalize a `(year, month)` pair so the month lands in `[1,12]`,
as Go's `time.Date` does before day arithmetic. -/
def normYM (y m : Int) : Int × Int := (y + (m - 1) / 12, (m - 1) % 12 + 1)

/-- Model of Go's `time.Date(y, m, d, 0, 0, s, 0, loc)`: an absolute instant in
seconds.  The month is normalized first; the day argument is linear (out-of-range
days roll over). -/
def mkDate (y m d s : Int) : Int :=
  86400 * daysFromCivil (normYM y m).1 (normYM y m).2 d + s

/-- Year-of-era recovered from a day-of-era (step of the inverse conversion). -/
def cfdYoe (doe : Int) : Int :=
  (doe - doe / 1460 + doe / 36524 - doe / 146096) / 365

/-- Day-of-year recovered from a day-of-era. -/
def cfdDoy (doe : Int) : Int :=
  doe - (365 * cfdYoe doe + cfdYoe doe / 4 - cfdYoe doe / 100)

/-- March-based month index recovered from a day-of-era. -/
def cfdMp (doe : Int) : Int := (5 * cfdDoy doe + 2) / 153

/-- Day-of-month recovered from a day-of-era. -/
def cfdD (doe : Int) : Int := cfdDoy doe - (153 * cfdMp doe + 2) / 5 + 1

/-- Civil month recovered from a day-of-era. -/
def cfdM (doe : Int) : Int := if cfdMp doe < 10 then cfdMp doe + 3 else cfdMp doe - 9

/-- Civil date from an era number and a day-of-era. -/
def cfdOfEraDoe (era doe : Int) : Int × Int × Int :=
  ((if cfdM doe ≤ 2 then cfdYoe doe + era * 400 + 1 else cfdYoe doe + era * 400),
    cfdM doe, cfdD doe)

/-- Civil date `(y, m, d)` of an absolute day count (inverse of
`daysFromCivil`; standard era-based conversion, factored into the steps
above). -/
def civilFromDays (z0 : Int) : Int × Int × Int :=
  cfdOfEraDoe ((z0 + 719468) / 146097) ((z0 + 719468) % 146097)

/-- Model of Go's `t.Year()` for an instant `t` in seconds. -/
def tYear (t : Int) : Int := (civilFromDays (t / 86400)).1

/-- Model of Go's `t.Month()`. -/
def tMonth (t : Int) : Int := (civilFromDays (t / 86400)).2.1

/-- Model of Go's `t.Day()`. -/
def tDay (t : Int) : Int := (civilFromDays (t / 86400)).2.2

/-- Second-of-day of an instant. -/
def tSec (t : Int) : Int := t % 86400

/-- Model of Go's `t.AddDate(years, months, days)`: reads the civil fields of
`t` and rebuilds the date with the offsets added, normalizing. -/
def addDate (t years months days : Int) : Int :=
  mkDate (tYear t + years) (tMonth t + months) (tDay t + days) (tSec t)

/-- Validity of civil fields: month in range, day within the month, second
within the day. -/
def ValidCivil (y m d s : Int) : Prop :=
  1 ≤ m ∧ m ≤ 12 ∧ 1 ≤ d ∧ d ≤ monthLen y m ∧ 0 ≤ s ∧ s < 86400

instance (y m d s : Int) : Decidable (ValidCivil y m d s) := by
  unfold ValidCivil; infer_instance

/-! ### Correctness of the civil conversions

The inverse conversion is verified by an endpoint check over the 400-year era
(decided by the kernel) extended to all days of the year through monotonicity
of the year-of-era recovery function. -/

/-- 1 if year `yoe + 1` of an era is a leap year, else 0. -/
def leapBitN (yoe : Nat) : Nat :=
  if (yoe + 1) % 4 = 0 ∧ ((yoe + 1) % 100 ≠ 0 ∨ yoe + 1 = 400) then 1 else 0

/-- Day-of-era from year-of-era and day-of-year (March-based), `Nat` version. -/
def doeN (yoe doy : Nat) : Nat := yoe * 365 + yoe / 4 - yoe / 100 + doy

/-- The year-of-era recovery map applied to a day-of-era. -/
def yoeRecover (doe : Nat) : Nat :=
  (doe - doe / 1460 + doe / 36524 - doe / 146096) / 365

/-- Endpoint check: for each year-of-era below `n`, the recovery map returns
the year at the first and last day of that year. -/
def yoeEndChk : Nat → Bool
  | 0 => true
  | y + 1 =>
    (yoeRecover (doeN y 0) == y) && (yoeRecover (doeN y (364 + leapBitN y)) == y)
      && yoeEndChk y

set_option maxRecDepth 2000 in
theorem yoeEndChk_400 : yoeEndChk 400 = true := by decide

theorem yoeEndChk_spec : ∀ n, yoeEndChk n = true → ∀ y, y < n →
    yoeRecover (doeN y 0) = y ∧ yoeRecover (doeN y (364 + leapBitN y)) = y := by
  intro n
  induction n with
  | zero => intro _ y hy; omega
  | succ m ih =>
    intro h y hy
    simp only [yoeEndChk, Bool.and_eq_true, beq_iff_eq] at h
    rcases Nat.lt_succ_iff_lt_or_eq.mp hy with h' | h'
    · exact ih h.2 y h'
    · subst h'; exact ⟨h.1.1, h.1.2⟩

theorem yoeRecover_arg_mono (x : Nat) :
    x - x / 1460 + x / 36524 - x / 146096
      ≤ (x + 1) - (x + 1) / 1460 + (x + 1) / 36524 - (x + 1) / 146096 := by
  omega

theorem yoeRecover_mono : ∀ x y : Nat, x ≤ y → yoeRecover x ≤ yoeRecover y := by
  intro x y h
  induction h with
  | refl => exact Nat.le_refl _
  | step h ih =>
    refine Nat.le_trans ih ?_
    unfold yoeRecover
    exact Nat.div_le_div_right (yoeRecover_arg_mono _)

theorem yoeRecoverNat (yoe doy : Nat) (h1 : yoe < 400)
    (h2 : doy ≤ 364 + leapBitN yoe) : yoeRecover (doeN yoe doy) = yoe := by
  obtain ⟨e0, e1⟩ := yoeEndChk_spec 400 yoeEndChk_400 yoe h1
  have m0 : yoeRecover (doeN yoe 0) ≤ yoeRecover (doeN yoe doy) :=
    yoeRecover_mono _ _ (by unfold doeN; omega)
  have m1 : yoeRecover (doeN yoe doy) ≤ yoeRecover (doeN yoe (364 + leapBitN yoe)) :=
    yoeRecover_mono _ _ (by unfold doeN; omega)
  omega

/-- `Int` version of the year-of-era recovery, as used in `civilFromDays`. -/
theorem yoeRecoverInt (yoe doy L : Int) (h1 : 0 ≤ yoe) (h2 : yoe ≤ 399)
    (h3 : 0 ≤ doy) (h4 : doy ≤ 364 + L) (h5 : 0 ≤ L) (h6 : L ≤ 1)
    (hL : L = 1 → ((yoe + 1) % 4 = 0 ∧ ((yoe + 1) % 100 ≠ 0 ∨ yoe + 1 = 400))) :
    (yoe * 365 + yoe / 4 - yoe / 100 + doy
     - (yoe * 365 + yoe / 4 - yoe / 100 + doy) / 1460
     + (yoe * 365 + yoe / 4 - yoe / 100 + doy) / 36524
     - (yoe * 365 + yoe / 4 - yoe / 100 + doy) / 146096) / 365 = yoe := by
  have hX : yoe * 365 + yoe / 4 - yoe / 100 + doy
      = ((yoe.toNat * 365 + yoe.toNat / 4 - yoe.toNat / 100 + doy.toNat : Nat) : Int) := by
    omega
  have hle : doy.toNat ≤ 364 + leapBitN yoe.toNat := by
    unfold leapBitN
    split
    · omega
    · rename_i hcond
      have hL0 : L = 0 := by
        by_contra hC
        have := hL (by omega)
        apply hcond
        refine ⟨by omega, ?_⟩
        rcases this.2 with h | h
        · left; omega
        · right; omega
      omega
  have hNat := yoeRecoverNat yoe.toNat doy.toNat (by omega) hle
  unfold yoeRecover doeN at hNat
  obtain ⟨N, hN⟩ : ∃ N, yoe.toNat * 365 + yoe.toNat / 4 - yoe.toNat / 100 + doy.toNat = N :=
    ⟨_, rfl⟩
  rw [hN] at hNat hX
  obtain ⟨M, hM⟩ : ∃ M, N - N / 1460 + N / 36524 - N / 146096 = M := ⟨_, rfl⟩
  rw [hM] at hNat
  rw [hX]
  have d1 : ((N : Int)) / 1460 = ((N / 1460 : Nat) : Int) := by omega
  have d2 : ((N : Int)) / 36524 = ((N / 36524 : Nat) : Int) := by omega
  have d3 : ((N : Int)) / 146096 = ((N / 146096 : Nat) : Int) := by omega
  rw [d1, d2, d3]
  have hXM : ((N : Int)) - ((N / 1460 : Nat) : Int) + ((N / 36524 : Nat) : Int)
      - ((N / 146096 : Nat) : Int) = ((M : Nat) : Int) := by omega
  rw [hXM]
  have d4 : ((M : Int)) / 365 = ((M / 365 : Nat) : Int) := by omega
  rw [d4, hNat]
  omega

/-- `cfdYoe` recovers the year-of-era from `doe = yoe·365 + yoe/4 − yoe/100 + doy`. -/
theorem cfdYoe_spec (yoe doy L : Int) (h1 : 0 ≤ yoe) (h2 : yoe ≤ 399)
    (h3 : 0 ≤ doy) (h4 : doy ≤ 364 + L) (h5 : 0 ≤ L) (h6 : L ≤ 1)
    (hL : L = 1 → ((yoe + 1) % 4 = 0 ∧ ((yoe + 1) % 100 ≠ 0 ∨ yoe + 1 = 400))) :
    cfdYoe (yoe * 365 + yoe / 4 - yoe / 100 + doy) = yoe := by
  unfold cfdYoe
  exact yoeRecoverInt yoe doy L h1 h2 h3 h4 h5 h6 hL

/-- Length of March-based month `mp` (0 = March … 11 = February), with `L` the
leap bit of the February closing the shifted year. -/
def mpLen (mp L : Int) : Int :=
  if mp = 0 then 31 else if mp = 1 then 30 else if mp = 2 then 31
  else if mp = 3 then 30 else if mp = 4 then 31 else if mp = 5 then 31
  else if mp = 6 then 30 else if mp = 7 then 31 else if mp = 8 then 30
  else if mp = 9 then 31 else if mp = 10 then 31 else 28 + L

theorem doy_bounds (mp d L : Int) (hmp1 : 0 ≤ mp) (hmp2 : mp ≤ 11)
    (hd1 : 1 ≤ d) (hd2 : d ≤ mpLen mp L) (hL0 : 0 ≤ L) (hL1 : L ≤ 1) :
    0 ≤ (153 * mp + 2) / 5 + d - 1 ∧ (153 * mp + 2) / 5 + d - 1 ≤ 364 + L := by
  interval_cases mp <;> simp only [mpLen] at hd2 <;> omega

theorem cfdDoy_spec (yoe doy L : Int) (h1 : 0 ≤ yoe) (h2 : yoe ≤ 399)
    (h3 : 0 ≤ doy) (h4 : doy ≤ 364 + L) (h5 : 0 ≤ L) (h6 : L ≤ 1)
    (hL : L = 1 → ((yoe + 1) % 4 = 0 ∧ ((yoe + 1) % 100 ≠ 0 ∨ yoe + 1 = 400))) :
    cfdDoy (yoe * 365 + yoe / 4 - yoe / 100 + doy) = doy := by
  unfold cfdDoy
  rw [cfdYoe_spec yoe doy L h1 h2 h3 h4 h5 h6 hL]
  omega

theorem cfdMp_d_spec (doe mp d : Int) (hdoy : cfdDoy doe = (153 * mp + 2) / 5 + d - 1)
    (hmp1 : 0 ≤ mp) (hmp2 : mp ≤ 11) (hd1 : 1 ≤ d) (hd2 : d - 1 < mpLen mp 1) :
    cfdMp doe = mp ∧ cfdD doe = d := by
  unfold cfdMp cfdD
  rw [hdoy]
  constructor
  · interval_cases mp <;> simp only [mpLen] at hd2 <;> omega
  · unfold cfdMp
    rw [hdoy]
    have : (5 * ((153 * mp + 2) / 5 + d - 1) + 2) / 153 = mp := by
      interval_cases mp <;> simp only [mpLen] at hd2 <;> omega
    rw [this]
    omega

/-- 1 if `y` is a leap year, else 0. -/
def leapBit (y : Int) : Int := if isLeap y then 1 else 0

theorem leapBit_iff (y : Int) :
    (leapBit y = 1 ↔ (y % 4 = 0 ∧ y % 100 ≠ 0) ∨ y % 400 = 0)
      ∧ (leapBit y = 0 ∨ leapBit y = 1) := by
  unfold leapBit
  have h : isLeap y = true ↔ ((y % 4 = 0 ∧ y % 100 ≠ 0) ∨ y % 400 = 0) := by
    simp [isLeap, Bool.or_eq_true, Bool.and_eq_true, beq_iff_eq, bne_iff_ne]
  split
  · rename_i hcond
    exact ⟨⟨fun _ => h.mp hcond, fun _ => rfl⟩, Or.inr rfl⟩
  · rename_i hcond
    refine ⟨⟨fun h01 => absurd h01 (by omega), fun hp => absurd (h.mpr hp) hcond⟩, Or.inl rfl⟩

theorem monthLen_feb (y : Int) : monthLen y 2 = 28 + leapBit y := by
  unfold monthLen leapBit
  split <;> simp_all <;> split <;> omega

theorem monthLen_bounds (y m : Int) (h1 : 1 ≤ m) (h2 : m ≤ 12) :
    28 ≤ monthLen y m ∧ monthLen y m ≤ 31 := by
  unfold monthLen
  interval_cases m <;> simp <;> split <;> omega

theorem cfd_shift (era doe : Int) (h1 : 0 ≤ doe) (h2 : doe ≤ 146096) :
    civilFromDays (era * 146097 + doe - 719468) = cfdOfEraDoe era doe := by
  unfold civilFromDays
  have e1 : (era * 146097 + doe - 719468 + 719468) / 146097 = era := by omega
  have e2 : (era * 146097 + doe - 719468 + 719468) % 146097 = doe := by omega
  rw [e1, e2]

/-- Master roundtrip: the inverse conversion recovers the civil fields of any
valid date. -/
theorem civilFromDays_daysFromCivil (y m d : Int) (hm1 : 1 ≤ m) (hm2 : m ≤ 12)
    (hd1 : 1 ≤ d) (hd2 : d ≤ monthLen y m) :
    civilFromDays (daysFromCivil y m d) = (y, m, d) := by
  by_cases hm3 : m ≤ 2
  · -- January and February: shifted year is y − 1
    have hif1 : (if m ≤ 2 then y - 1 else y) = y - 1 := if_pos hm3
    have hif2 : (if m > 2 then m - 3 else m + 9) = m + 9 := if_neg (by omega)
    have hLb := leapBit_iff y
    have hfeb := monthLen_feb y
    have hdfc : daysFromCivil y m d
        = ((y - 1) / 400) * 146097
          + (((y - 1) - (y - 1) / 400 * 400) * 365
             + ((y - 1) - (y - 1) / 400 * 400) / 4
             - ((y - 1) - (y - 1) / 400 * 400) / 100
             + ((153 * (m + 9) + 2) / 5 + d - 1)) - 719468 := by
      simp only [daysFromCivil, hif1, hif2]
    have hmlen : d ≤ mpLen (m + 9) (leapBit y) := by
      rcases (by omega : m = 1 ∨ m = 2) with h | h <;> subst h
      · simpa [mpLen] using (by simpa [monthLen] using hd2 : d ≤ 31)
      · simp only [mpLen]
        norm_num
        omega
    have hyoeb : 0 ≤ (y - 1) - (y - 1) / 400 * 400 ∧ (y - 1) - (y - 1) / 400 * 400 ≤ 399 := by
      omega
    have hL01 : 0 ≤ leapBit y ∧ leapBit y ≤ 1 := by omega
    have hdoyb := doy_bounds (m + 9) d (leapBit y) (by omega) (by omega) hd1 hmlen
      hL01.1 hL01.2
    have hLlink : leapBit y = 1 →
        (((y - 1) - (y - 1) / 400 * 400 + 1) % 4 = 0
          ∧ (((y - 1) - (y - 1) / 400 * 400 + 1) % 100 ≠ 0
             ∨ (y - 1) - (y - 1) / 400 * 400 + 1 = 400)) := by
      intro h1
      have := hLb.1.mp h1
      omega
    have hyoe := cfdYoe_spec ((y - 1) - (y - 1) / 400 * 400)
      ((153 * (m + 9) + 2) / 5 + d - 1) (leapBit y) hyoeb.1 hyoeb.2 hdoyb.1 hdoyb.2
      hL01.1 hL01.2 hLlink
    have hdoy := cfdDoy_spec ((y - 1) - (y - 1) / 400 * 400)
      ((153 * (m + 9) + 2) / 5 + d - 1) (leapBit y) hyoeb.1 hyoeb.2 hdoyb.1 hdoyb.2
      hL01.1 hL01.2 hLlink
    have hmpd := cfdMp_d_spec _ (m + 9) d hdoy (by omega) (by omega) hd1
      (by rcases (by omega : m = 1 ∨ m = 2) with h | h <;> subst h <;>
        simp only [mpLen] at hmlen ⊢ <;> norm_num at hmlen ⊢ <;> omega)
    have hdoeb : 0 ≤ ((y - 1) - (y - 1) / 400 * 400) * 365
          + ((y - 1) - (y - 1) / 400 * 400) / 4
          - ((y - 1) - (y - 1) / 400 * 400) / 100
          + ((153 * (m + 9) + 2) / 5 + d - 1)
        ∧ ((y - 1) - (y - 1) / 400 * 400) * 365
          + ((y - 1) - (y - 1) / 400 * 400) / 4
          - ((y - 1) - (y - 1) / 400 * 400) / 100
          + ((153 * (m + 9) + 2) / 5 + d - 1) ≤ 146096 := by
      omega
    rw [hdfc, cfd_shift _ _ hdoeb.1 hdoeb.2]
    unfold cfdOfEraDoe cfdM
    rw [hmpd.1, hmpd.2, hyoe]
    rw [if_neg (by omega : ¬(m + 9 < 10))]
    rw [if_pos (by omega : m + 9 - 9 ≤ 2)]
    refine Prod.ext ?_ (Prod.ext ?_ ?_) <;> simp <;> omega
  · -- March through December: shifted year is y
    have hif1 : (if m ≤ 2 then y - 1 else y) = y := if_neg hm3
    have hif2 : (if m > 2 then m - 3 else m + 9) = m - 3 := if_pos (by omega)
    have hLb := leapBit_iff (y + 1)
    have hdfc : daysFromCivil y m d
        = (y / 400) * 146097
          + ((y - y / 400 * 400) * 365
             + (y - y / 400 * 400) / 4
             - (y - y / 400 * 400) / 100
             + ((153 * (m - 3) + 2) / 5 + d - 1)) - 719468 := by
      simp only [daysFromCivil, hif1, hif2]
    have hmlen : d ≤ mpLen (m - 3) (leapBit (y + 1)) := by
      have : monthLen y m = mpLen (m - 3) (leapBit (y + 1)) := by
        interval_cases m <;> simp [monthLen, mpLen] <;> omega
      omega
    have hyoeb : 0 ≤ y - y / 400 * 400 ∧ y - y / 400 * 400 ≤ 399 := by omega
    have hL01 : 0 ≤ leapBit (y + 1) ∧ leapBit (y + 1) ≤ 1 := by
      have := (leapBit_iff (y + 1)).2
      omega
    have hdoyb := doy_bounds (m - 3) d (leapBit (y + 1)) (by omega) (by omega) hd1 hmlen
      hL01.1 hL01.2
    have hLlink : leapBit (y + 1) = 1 →
        ((y - y / 400 * 400 + 1) % 4 = 0
          ∧ ((y - y / 400 * 400 + 1) % 100 ≠ 0 ∨ y - y / 400 * 400 + 1 = 400)) := by
      intro h1
      have := hLb.1.mp h1
      omega
    have hyoe := cfdYoe_spec (y - y / 400 * 400)
      ((153 * (m - 3) + 2) / 5 + d - 1) (leapBit (y + 1)) hyoeb.1 hyoeb.2 hdoyb.1 hdoyb.2
      hL01.1 hL01.2 hLlink
    have hdoy := cfdDoy_spec (y - y / 400 * 400)
      ((153 * (m - 3) + 2) / 5 + d - 1) (leapBit (y + 1)) hyoeb.1 hyoeb.2 hdoyb.1 hdoyb.2
      hL01.1 hL01.2 hLlink
    have hmpd := cfdMp_d_spec _ (m - 3) d hdoy (by omega) (by omega) hd1
      (by
        have : monthLen y m = mpLen (m - 3) 1 := by
          interval_cases m <;> simp [monthLen, mpLen] <;> omega
        omega)
    have hdoeb : 0 ≤ (y - y / 400 * 400) * 365
          + (y - y / 400 * 400) / 4
          - (y - y / 400 * 400) / 100
          + ((153 * (m - 3) + 2) / 5 + d - 1)
        ∧ (y - y / 400 * 400) * 365
          + (y - y / 400 * 400) / 4
          - (y - y / 400 * 400) / 100
          + ((153 * (m - 3) + 2) / 5 + d - 1) ≤ 146096 := by
      omega
    rw [hdfc, cfd_shift _ _ hdoeb.1 hdoeb.2]
    unfold cfdOfEraDoe cfdM
    rw [hmpd.1, hmpd.2, hyoe]
    rw [if_pos (by omega : m - 3 < 10)]
    rw [if_neg (by omega : ¬(m - 3 + 3 ≤ 2))]
    refine Prod.ext ?_ (Prod.ext ?_ ?_) <;> simp <;> omega

/-! ### Derived calendar lemmas -/

theorem normYM_spec (y m : Int) :
    1 ≤ (normYM y m).2 ∧ (normYM y m).2 ≤ 12
      ∧ 12 * (normYM y m).1 + (normYM y m).2 = 12 * y + m := by
  unfold normYM
  refine ⟨?_, ?_, ?_⟩ <;> simp <;> omega

theorem normYM_id (y m : Int) (h1 : 1 ≤ m) (h2 : m ≤ 12) : normYM y m = (y, m) := by
  unfold normYM
  refine Prod.ext ?_ ?_ <;> simp <;> omega

theorem normYM_add (y m k : Int) :
    normYM (normYM y m).1 ((normYM y m).2 + k) = normYM y (m + k) := by
  unfold normYM
  refine Prod.ext ?_ ?_ <;> simp <;> omega

theorem normYM_of_LM (y m y2 m2 : Int) (h1 : 1 ≤ m2) (h2 : m2 ≤ 12)
    (hLM : 12 * y2 + m2 = 12 * y + m) : normYM y m = (y2, m2) := by
  unfold normYM
  refine Prod.ext ?_ ?_ <;> simp <;> omega

/-- `daysFromCivil` is linear in the day argument (Go-style day rollover). -/
theorem daysFromCivil_day (y m d : Int) :
    daysFromCivil y m d = daysFromCivil y m 1 + (d - 1) := by
  simp only [daysFromCivil]
  split <;> split <;> omega

/-- The civil fields of a `mkDate` instant built from valid fields. -/
theorem mkDate_fields (y m d s : Int) (h : ValidCivil y m d s) :
    tYear (mkDate y m d s) = y ∧ tMonth (mkDate y m d s) = m
      ∧ tDay (mkDate y m d s) = d ∧ tSec (mkDate y m d s) = s := by
  obtain ⟨h1, h2, h3, h4, h5, h6⟩ := h
  unfold mkDate tYear tMonth tDay tSec
  rw [normYM_id y m h1 h2]
  have hdiv : (86400 * daysFromCivil (y, m).1 (y, m).2 d + s) / 86400
      = daysFromCivil (y, m).1 (y, m).2 d := by omega
  rw [hdiv]
  have := civilFromDays_daysFromCivil y m d h1 h2 h3 h4
  simp only [Prod.fst, Prod.snd] at *
  rw [this]
  refine ⟨rfl, rfl, rfl, by omega⟩

/-- First day of the month `m` (offset-normalized) of year `y`, as a day count. -/
def monthFirst (y m : Int) : Int :=
  daysFromCivil (normYM y m).1 (normYM y m).2 1

/-- Month-successor identity: the first day of the next month is the first day
of this month plus this month's length. -/
theorem monthFirst_succ (Y M : Int) (h1 : 1 ≤ M) (h2 : M ≤ 12) :
    monthFirst Y (M + 1) = daysFromCivil Y M 1 + monthLen Y M := by
  have hLb := leapBit_iff Y
  have hfeb := monthLen_feb Y
  unfold monthFirst
  interval_cases M <;>
    [skip; skip; skip; skip; skip; skip; skip; skip; skip; skip; skip;
     (rw [show normYM Y (12 + 1) = (Y + 1, 1) from by
        unfold normYM; refine Prod.ext ?_ ?_ <;> simp <;> omega])] <;>
    try rw [normYM_id _ _ (by omega) (by omega)]
  all_goals try rw [hfeb]
  all_goals (simp only [daysFromCivil, monthLen]; norm_num; omega)

theorem monthFirst_id (Y M : Int) (h1 : 1 ≤ M) (h2 : M ≤ 12) :
    monthFirst Y M = daysFromCivil Y M 1 := by
  unfold monthFirst
  rw [normYM_id _ _ h1 h2]

/-- Iterated month-successor bound: moving `k` months forward advances the
first-of-month day count by at least `28·k`. -/
theorem monthFirst_le (Y M : Int) (h1 : 1 ≤ M) (h2 : M ≤ 12) (k : Nat) :
    daysFromCivil Y M 1 + 28 * k ≤ monthFirst Y (M + k) := by
  induction k with
  | zero =>
    rw [show M + ((0 : Nat) : Int) = M from by omega, monthFirst_id Y M h1 h2]
    omega
  | succ n ih =>
    have hsp := normYM_spec Y (M + n)
    have hstep := monthFirst_succ (normYM Y (M + n)).1 (normYM Y (M + n)).2
      hsp.1 hsp.2.1
    unfold monthFirst at hstep
    rw [normYM_add] at hstep
    have hlen := monthLen_bounds (normYM Y (M + n)).1 (normYM Y (M + n)).2 hsp.1 hsp.2.1
    have hcast : M + ((n + 1 : Nat) : Int) = M + (n : Int) + 1 := by push_cast; ring
    rw [hcast]
    unfold monthFirst
    unfold monthFirst at ih
    -- relate daysFromCivil at (normYM Y (M+n)) to monthFirst Y (M+n)
    have hfold : daysFromCivil (normYM Y (M + n)).1 (normYM Y (M + n)).2 1
        = monthFirst Y (M + n) := rfl
    rw [hfold] at hstep
    unfold monthFirst at hstep
    omega

/-! ## Amount extraction (`parseAmountFromSummary`)

Models Go's `regexp.MustCompile` + `FindStringSubmatch` for the fixed pattern
`£?(\d{1,3}(,\d{3})*|\d+)(\.\d{1,2})?` under Go's documented leftmost-first
(Perl-preference) semantics: the match begins as early as possible, and among
matches there, alternatives are tried left to right and quantifiers greedily.
Because every piece after the leading 1–3 digits is optional or starred, the
preferred parse never backtracks, so the matcher below is a direct transcription:
take the optional `£`, then greedily 1–3 digits (the first alternative — the
`\d+` alternative is never reached, since any position with a digit satisfies
the first), then `(,\d{3})*` greedily, then the optional 1–2 digit fraction.
Strings are treated as rune (Char) lists, as Go's regexp does. -/

def isDigitC (c : Char) : Bool := '0' ≤ c && c ≤ '9'

def digitVal (c : Char) : Nat := c.toNat - '0'.toNat

/-- Take up to `n` leading digits. -/
def takeDigits : Nat → List Char → List Char × List Char
  | _, [] => ([], [])
  | 0, cs => ([], cs)
  | n + 1, c :: cs =>
    if isDigitC c then
      let (ds, rest) := takeDigits n cs
      (c :: ds, rest)
    else ([], c :: cs)

/-- Greedy `(,\d{3})*`: consume as many `,ddd` groups as possible. -/
def takeGroups : Nat → List Char → List Char × List Char
  | 0, cs => ([], cs)
  | fuel + 1, cs =>
    match cs with
    | c0 :: rest0 =>
      if c0 == ',' then
        match rest0 with
        | c1 :: c2 :: c3 :: rest =>
          if isDigitC c1 && isDigitC c2 && isDigitC c3 then
            let (gs, r) := takeGroups fuel rest
            (c0 :: c1 :: c2 :: c3 :: gs, r)
          else ([], cs)
        | _ => ([], cs)
      else ([], cs)
    | [] => ([], [])

/-- Optional `(\.\d{1,2})?`: a dot followed by one or two digits. -/
def takeFrac : List Char → List Char × List Char
  | cs =>
    match cs with
    | c :: rest =>
      if c == '.' then
        match rest with
        | c1 :: rest1 =>
          if isDigitC c1 then
            match rest1 with
            | c2 :: rest2 =>
              if isDigitC c2 then ([c, c1, c2], rest2) else ([c, c1], rest1)
            | [] => ([c, c1], [])
          else ([], cs)
        | [] => ([], cs)
      else ([], cs)
    | [] => ([], [])

/-- Match the numeric core (first alternative of the integer part, groups,
fraction) at the current position; requires a leading digit. -/
def matchCore (cs : List Char) : Option (List Char) :=
  match cs with
  | c :: _ =>
    if isDigitC c then
      let (ds, r1) := takeDigits 3 cs
      let (gs, r2) := takeGroups r1.length r1
      let (fs, _) := takeFrac r2
      some (ds ++ gs ++ fs)
    else none
  | [] => none

/-- Match the full token at the current position.  `£?` greedily consumes a
leading `£`; if the `£` is not followed by a digit, the fallback without the
`£` also fails (a `£` is not a digit), so no backtracking case is needed. -/
def matchToken (cs : List Char) : Option (List Char) :=
  match cs with
  | c :: rest => if c == '£' then (matchCore rest).map (c :: ·) else matchCore cs
  | [] => none

/-- Leftmost match: scan positions left to right. -/
def findToken : List Char → Option (List Char)
  | [] => none
  | c :: cs =>
    match matchToken (c :: cs) with
    | some t => some t
    | none => findToken cs

/-- Numeric value of a digit list, base 10. -/
def digitsValN (ds : List Char) : Nat := ds.foldl (fun a c => 10 * a + digitVal c) 0

/-- Model of `strconv.ParseFloat` restricted to the unsigned decimal
integer-dot-fraction shapes that the matcher produces (the only inputs the
program feeds it); the value is kept as an exact rational.  Every amount the
claims exercise is integral, where `float64` parsing is exact. -/
def parseDecimal (cs : List Char) : Option ℚ :=
  let ds := cs.takeWhile isDigitC
  let rest := cs.dropWhile isDigitC
  if ds.isEmpty then none
  else
    match rest with
    | [] => some (digitsValN ds)
    | '.' :: fs =>
      if fs.isEmpty || !fs.all isDigitC then none
      else some ((digitsValN ds : ℚ) + (digitsValN fs : ℚ) / (10 : ℚ) ^ fs.length)
    | _ => none

/-- Go's `strings.ReplaceAll(s, "£", "")` followed by `ReplaceAll(s, ",", "")`. -/
def stripGlyphSep (cs : List Char) : List Char :=
  cs.filter (fun c => !(c == '£') && !(c == ','))

/-- Model of `parseAmountFromSummary`: `none` plays the role of the
`(0, false)` return. -/
def parseAmountFromSummary (cs : List Char) : Option ℚ :=
  match findToken cs with
  | none => none
  | some tok => parseDecimal (stripGlyphSep tok)

/-! ## Money formatting (`fmt.Sprintf "Total Remaining £%.2f"`) -/

def natDigitsAux : Nat → Nat → List Char
  | 0, _ => []
  | fuel + 1, n =>
    if n < 10 then [Char.ofNat (48 + n)]
    else natDigitsAux fuel (n / 10) ++ [Char.ofNat (48 + n % 10)]

def natToChars (n : Nat) : List Char := natDigitsAux (n + 1) n

def pad2 (n : Nat) : List Char := if n < 10 then '0' :: natToChars n else natToChars n

/-- `%.2f` rendering of a total.  For the cent-exact totals the engine
produces this is the exact two-decimal rendering (binary-float rounding of
non-cent-exact values is not exercised by any claim). -/
def fmtMoney (q : ℚ) : List Char :=
  let c : Int := (q * 100 + 1 / 2).floor
  if c < 0 then
    '-' :: (natToChars ((-c).toNat / 100) ++ '.' :: pad2 ((-c).toNat % 100))
  else natToChars (c.toNat / 100) ++ '.' :: pad2 (c.toNat % 100)

/-- The summary text `"Total Remaining £%.2f"` of an inserted summary event. -/
def summaryText (total : ℚ) : List Char := "Total Remaining £".toList ++ fmtMoney total

/-- Model of Go's `strings.HasPrefix` on rune lists. -/
def goHasPrefix : List Char → List Char → Bool
  | [], _ => true
  | _ :: _, [] => false
  | a :: ps, b :: ss => a == b && goHasPrefix ps ss

/-- Keyword containment, modelling the store's free-text `Q(...)` filter
(§6: "whose text matches a tag/keyword filter"). -/
def containsTag : List Char → List Char → Bool
  | tag, [] => tag.isEmpty
  | tag, c :: s => goHasPrefix tag (c :: s) || containsTag tag s

/-! ## The external event store (spec §6 collaborator contract)

The store is modelled as a list of events with fresh-id insertion.  The
`insCount`/`qCount` fields number the insert/query calls of a run so that a
`FaultSpec` can make a designated remote operation fail, modelling the
spec's query/delete/insert failure conditions; `noFault` is the
failure-free store. -/

structure GEvent where
  id : Nat
  summary : List Char
  start : Int
  endt : Int
deriving DecidableEq

structure Store where
  events : List GEvent
  nextId : Nat
  insCount : Nat
  qCount : Nat
deriving DecidableEq

structure FaultSpec where
  deleteFails : Nat → Bool
  insertFails : Nat → Bool
  queryFails : Nat → Bool

def noFault : FaultSpec := ⟨fun _ => false, fun _ => false, fun _ => false⟩

/-- `query(tagPrefix, optional timeRange)`: list events matching the keyword
filter, optionally bounded by a start/end window (inclusive at second
granularity; the program passes period-end minus one second as the upper
bound, giving the spec's half-open period). -/
def queryEvents (fs : FaultSpec) (st : Store) (q : List Char)
    (range : Option (Int × Int)) : Option (List GEvent × Store) :=
  if fs.queryFails st.qCount then none
  else
    some (st.events.filter (fun e =>
        containsTag q e.summary &&
          match range with
          | none => true
          | some (lo, hi) => decide (lo ≤ e.start) && decide (e.start ≤ hi)),
      { st with qCount := st.qCount + 1 })

/-- `delete(eventId)`: remove one event by id; the store is unchanged when the
remote call fails. -/
def delEvent (fs : FaultSpec) (st : Store) (i : Nat) : Option Store :=
  if fs.deleteFails i then none
  else some { st with events := st.events.filter (fun e => !(e.id == i)) }

/-- `insert(event)`: create one event with a fresh id. -/
def insEvent (fs : FaultSpec) (st : Store) (summary : List Char)
    (startD endD : Int) : Option Store :=
  if fs.insertFails st.insCount then none
  else
    some { events := st.events ++ [⟨st.nextId, summary, startD, endD⟩],
           nextId := st.nextId + 1, insCount := st.insCount + 1, qCount := st.qCount }

/-! ## Configuration (`getConfig`) -/

structure Config where
  TotalRemainingOn : String
  TimeZone : String
  PayDate : Int
  TickIntervalMinutes : Int
deriving DecidableEq

/-- Model of `strconv.Atoi` on the decimal strings the program can receive
(optional sign, then digits; empty or malformed input is an error; the int64
range error is not modelled as no claim exercises it). -/
def atoiChars : List Char → Option Int
  | [] => none
  | '+' :: ds =>
    if ds.isEmpty || !ds.all isDigitC then none else some (digitsValN ds)
  | '-' :: ds =>
    if ds.isEmpty || !ds.all isDigitC then none else some (-(digitsValN ds : Int))
  | ds =>
    if !ds.all isDigitC then none else some (digitsValN ds)

def atoi (s : String) : Option Int := atoiChars s.toList

/-- Model of `getConfig` (main.go lines 85–120).  `env` models `os.Getenv`
(unset variables read as `""`).  Note the fallback values actually assigned:
`payDate = 1` and `tickInterval = 1` minute (while the log messages claim 16
and 60). -/
def getConfig (env : String → String) : Config :=
  let tro0 := env "TOTAL_REMAINING_ON"
  let tro := if tro0 = "" then "First Day of the Month" else tro0
  let tz0 := env "TIME_ZONE"
  let tz := if tz0 = "" then "GMT" else tz0
  let payDate := match atoi (env "PAY_DATE") with | some n => n | none => 1
  let tick := match atoi (env "TICK_INTERVAL") with | some n => n | none => 1
  { TotalRemainingOn := tro, TimeZone := tz, PayDate := payDate,
    TickIntervalMinutes := tick }

/-! ## Payment aggregation (`calculateTotalPayments`, lines 142–170) -/

/-- Sum of the parsed amounts of a list of events; events whose summary yields
no amount contribute zero. -/
def sumAmounts (items : List GEvent) : ℚ :=
  items.foldl (fun acc e =>
    match parseAmountFromSummary e.summary with
    | some a => acc + a
    | none => acc) 0

/-- The now-clamp of `calculateTotalPayments`: `if startDate.Before(now)
{ startDate = now }`. -/
def effectiveStart (startDate now : Int) : Int :=
  if startDate < now then now else startDate

/-- `calculateTotalPayments` as a store interaction: one range query for
"Payment"-tagged events from the clamped start, then summation; a query
failure is fatal (`none`). -/
def calculateTotalPayments (fs : FaultSpec) (now startDate endDate : Int)
    (st : Store) : Option (ℚ × Store) :=
  match queryEvents fs st ("Payment".toList) (some (effectiveStart startDate now, endDate)) with
  | none => none
  | some (items, st') => some (sumAmounts items, st')

/-! ## Summary reconciliation (`manageTotalRemainingEvent`, lines 172–235,
and `manageTotalRemainingEventForMonth`, lines 268–305) -/

/-- The delete loop of the purge step: delete every queried event whose
summary begins with "Total Remaining"; a failed delete aborts, keeping the
deletions already performed. -/
def purgeLoop (fs : FaultSpec) : List GEvent → Store → Except Store Store
  | [], st => .ok st
  | e :: rest, st =>
    if goHasPrefix ("Total Remaining".toList) e.summary then
      match delEvent fs st e.id with
      | none => .error st
      | some st' => purgeLoop fs rest st'
    else purgeLoop fs rest st

/-- Placement date of the live-period summary (the `switch` of
`manageTotalRemainingEvent`); `none` models the fatal invalid-policy branch. -/
def liveEventDate (cfg : Config) (now : Int) : Option Int :=
  if cfg.TotalRemainingOn = "Last Day of the Month" then
    some (mkDate (tYear now) (tMonth now + 1) 1 0 - 86400)
  else if cfg.TotalRemainingOn = "First Day of the Month" then
    some (mkDate (tYear now) (tMonth now) 1 0)
  else if cfg.TotalRemainingOn = "Pay Date" then
    let d0 := mkDate (tYear now) (tMonth now) cfg.PayDate 0
    some (if tDay now > cfg.PayDate then addDate d0 0 1 0 else d0)
  else none

/-- `manageTotalRemainingEvent`: placement, global purge (query with no time
filter, delete every "Total Remaining"-prefixed event), then insert the fresh
summary.  Errors carry the store as left at the failure point. -/
def manageTotalRemainingEvent (fs : FaultSpec) (cfg : Config) (now : Int)
    (total : ℚ) (st : Store) : Except Store Store :=
  match liveEventDate cfg now with
  | none => .error st
  | some eventDate =>
    match queryEvents fs st ("Total Remaining".toList) none with
    | none => .error st
    | some (items, st1) =>
      match purgeLoop fs items st1 with
      | .error st2 => .error st2
      | .ok st2 =>
        match insEvent fs st2 (summaryText total) eventDate (addDate eventDate 0 0 1) with
        | none => .error st2
        | some st3 => .ok st3

/-- `getPaymentPeriodDates` (lines 258–266): `[payDate of month, payDate of
next month − 1s]`, with the explicit December wrap of the source. -/
def getPaymentPeriodDates (year month payDate : Int) : Int × Int :=
  let startDate := mkDate year month payDate 0
  let endDate :=
    if month = 12 then mkDate (year + 1) 1 payDate 0 - 1
    else mkDate year (month + 1) payDate 0 - 1
  (startDate, endDate)

/-- Placement date of a window-month summary (the `switch` of
`manageTotalRemainingEventForMonth`; note: no roll-forward in its
"Pay Date" arm). -/
def monthEventDate (cfg : Config) (year month : Int) : Option Int :=
  if cfg.TotalRemainingOn = "Last Day of the Month" then
    some (mkDate year (month + 1) 1 0 - 86400)
  else if cfg.TotalRemainingOn = "First Day of the Month" then
    some (mkDate year month 1 0)
  else if cfg.TotalRemainingOn = "Pay Date" then
    some (mkDate year month cfg.PayDate 0)
  else none

/-- `manageTotalRemainingEventForMonth`: placement then insert.  The source
performs no purge here — it only creates the event. -/
def manageTotalRemainingEventForMonth (fs : FaultSpec) (cfg : Config)
    (total : ℚ) (year month : Int) (st : Store) : Except Store Store :=
  match monthEventDate cfg year month with
  | none => .error st
  | some eventDate =>
    match insEvent fs st (summaryText total) eventDate (addDate eventDate 0 0 1) with
    | none => .error st
    | some st' => .ok st'

/-! ## Window driver (`generateFutureTotalRemainingEvents`, lines 238–255,
and `taskToRun`, lines 307–355) -/

/-- Anchor month of window offset `i`: the civil month containing
`now.AddDate(0, i, 0)`. -/
def windowAnchor (now i : Int) : Int × Int :=
  (tYear (addDate now 0 i 0), tMonth (addDate now 0 i 0))

/-- Nominal start of the window period at offset `i`. -/
def windowStart (now payDate i : Int) : Int :=
  (getPaymentPeriodDates (windowAnchor now i).1 (windowAnchor now i).2 payDate).1

/-- Nominal end of the window period at offset `i`. -/
def windowEnd (now payDate i : Int) : Int :=
  (getPaymentPeriodDates (windowAnchor now i).1 (windowAnchor now i).2 payDate).2

/-- The `for i := 1; i <= 11` loop body sequence of
`generateFutureTotalRemainingEvents`. -/
def genFutureLoop (fs : FaultSpec) (cfg : Config) (now : Int) :
    List Int → Store → Except Store Store
  | [], st => .ok st
  | i :: rest, st =>
    match calculateTotalPayments fs now (windowStart now cfg.PayDate i)
        (windowEnd now cfg.PayDate i) st with
    | none => .error st
    | some (total, st1) =>
      match manageTotalRemainingEventForMonth fs cfg total
          (windowAnchor now i).1 (windowAnchor now i).2 st1 with
      | .error st2 => .error st2
      | .ok st2 => genFutureLoop fs cfg now rest st2

def windowOffsets : List Int := [1, 2, 3, 4, 5, 6, 7, 8, 9, 10, 11]

def generateFutureTotalRemainingEvents (fs : FaultSpec) (cfg : Config)
    (now : Int) (st : Store) : Except Store Store :=
  genFutureLoop fs cfg now windowOffsets st

/-- The current payment period of `taskToRun` (lines 335–343). -/
def currentPeriod (now payDate : Int) : Int × Int :=
  if payDate ≤ tDay now then
    let s := mkDate (tYear now) (tMonth now) payDate 0
    (s, addDate s 0 1 0 - 1)
  else
    let s := mkDate (tYear now) (tMonth now - 1) payDate 0
    (s, addDate s 0 1 0 - 1)

/-- One full Window Driver pass: the store-affecting core of `taskToRun` —
aggregate the current period, reconcile the live summary (purge + insert),
then drive the 11 future window months. -/
def taskToRun (fs : FaultSpec) (cfg : Config) (now : Int) (st : Store) :
    Except Store Store :=
  match calculateTotalPayments fs now (currentPeriod now cfg.PayDate).1
      (currentPeriod now cfg.PayDate).2 st with
  | none => .error st
  | some (total, st1) =>
    match manageTotalRemainingEvent fs cfg now total st1 with
    | .error st2 => .error st2
    | .ok st2 => generateFutureTotalRemainingEvents fs cfg now st2

/-- The three placement-policy strings the program recognizes; any other
value is fatal at the point of use. -/
def validPolicy (cfg : Config) : Prop :=
  cfg.TotalRemainingOn = "Last Day of the Month"
    ∨ cfg.TotalRemainingOn = "First Day of the Month"
    ∨ cfg.TotalRemainingOn = "Pay Date"

instance (cfg : Config) : Decidable (validPolicy cfg) := by
  unfold validPolicy; infer_instance

/-- Count of summary events ("Total Remaining"-prefixed) in a store. -/
def countSummaries (st : Store) : Nat :=
  st.events.countP (fun e => goHasPrefix ("Total Remaining".toList) e.summary)

/-! ## Store lemmas -/

theorem goHasPrefix_append (p q r : List Char) (h : goHasPrefix p q = true) :
    goHasPrefix p (q ++ r) = true := by
  induction p generalizing q with
  | nil => simp [goHasPrefix]
  | cons a ps ih =>
    cases q with
    | nil => simp [goHasPrefix] at h
    | cons b qs =>
      simp only [goHasPrefix, List.cons_append, Bool.and_eq_true] at h ⊢
      exact ⟨h.1, ih qs h.2⟩

theorem containsTag_of_leading (t s : List Char) (h : goHasPrefix t s = true) :
    containsTag t s = true := by
  cases s with
  | nil =>
    cases t with
    | nil => rfl
    | cons a ts => simp [goHasPrefix] at h
  | cons c s' => simp [containsTag, h]

theorem summaryText_leading (q : ℚ) :
    goHasPrefix ("Total Remaining".toList) (summaryText q) = true := by
  unfold summaryText
  exact goHasPrefix_append _ _ _ (by decide)

/-- The ids of the "Total Remaining"-prefixed events among the queried items. -/
def prefIds (items : List GEvent) : List Nat :=
  (items.filter (fun e => goHasPrefix ("Total Remaining".toList) e.summary)).map
    (fun e => e.id)

theorem delEvent_noFault (st : Store) (i : Nat) :
    delEvent noFault st i
      = some { st with events := st.events.filter (fun e => !(e.id == i)) } := rfl

theorem insEvent_noFault (st : Store) (s : List Char) (d1 d2 : Int) :
    insEvent noFault st s d1 d2
      = some { events := st.events ++ [⟨st.nextId, s, d1, d2⟩],
               nextId := st.nextId + 1, insCount := st.insCount + 1,
               qCount := st.qCount } := rfl

theorem queryEvents_noFault (st : Store) (q : List Char) (r : Option (Int × Int)) :
    queryEvents noFault st q r
      = some (st.events.filter (fun e =>
          containsTag q e.summary &&
            match r with
            | none => true
            | some (lo, hi) => decide (lo ≤ e.start) && decide (e.start ≤ hi)),
        { st with qCount := st.qCount + 1 }) := rfl

/-- Failure-free purge: delete exactly the events whose id belongs to a
prefixed queried item. -/
theorem purgeLoop_noFault (items : List GEvent) (st : Store) :
    purgeLoop noFault items st
      = .ok { st with
          events := st.events.filter (fun e => !((prefIds items).contains e.id)) } := by
  induction items generalizing st with
  | nil =>
    simp [purgeLoop, prefIds]
  | cons e rest ih =>
    by_cases hp : goHasPrefix ("Total Remaining".toList) e.summary = true
    · simp only [purgeLoop, hp, if_true, delEvent_noFault]
      rw [ih]
      congr 1
      simp only [Store.mk.injEq, and_true, true_and]
      rw [List.filter_filter]
      apply List.filter_congr
      intro a _
      simp only [prefIds, List.filter_cons, hp, List.map_cons, List.contains_cons]
      cases h1 : a.id == e.id <;> cases h2 : (prefIds rest).contains a.id <;>
        simp [prefIds] at * <;> simp_all
    · have hp' : goHasPrefix ("Total Remaining".toList) e.summary = false := by
        simpa using hp
      simp only [purgeLoop, hp', Bool.false_eq_true, if_false]
      rw [ih]
      congr 2
      apply List.filter_congr
      intro a _
      simp only [prefIds, List.filter_cons, hp', Bool.false_eq_true, if_false]

theorem countSummaries_zero_of_purged (evs qitems : List GEvent)
    (hq : ∀ e ∈ evs, goHasPrefix ("Total Remaining".toList) e.summary = true →
      e ∈ qitems) :
    (evs.filter (fun e => !((prefIds qitems).contains e.id))).countP
      (fun e => goHasPrefix ("Total Remaining".toList) e.summary) = 0 := by
  rw [List.countP_eq_zero]
  intro e he
  rw [List.mem_filter] at he
  obtain ⟨hmem, hkeep⟩ := he
  intro hpref
  have hin : e ∈ qitems := hq e hmem hpref
  have : e.id ∈ prefIds qitems := by
    unfold prefIds
    rw [List.mem_map]
    exact ⟨e, List.mem_filter.mpr ⟨hin, hpref⟩, rfl⟩
  simp only [List.contains, Bool.not_eq_true'] at hkeep
  rw [Bool.eq_false_iff] at hkeep
  exact hkeep (List.elem_iff.mpr this)

theorem countP_append_summary (evs : List GEvent) (ev : GEvent)
    (hev : goHasPrefix ("Total Remaining".toList) ev.summary = true) :
    (evs ++ [ev]).countP (fun e => goHasPrefix ("Total Remaining".toList) e.summary)
      = evs.countP (fun e => goHasPrefix ("Total Remaining".toList) e.summary) + 1 := by
  rw [List.countP_append]
  have h1 : List.countP (fun e => goHasPrefix ("Total Remaining".toList) e.summary) [ev]
      = 1 := by
    rw [List.countP_cons, List.countP_nil]
    simp only [hev]
    rfl
  rw [h1]

/-- The store after one successful query (only the query counter moves). -/
def bumpQ (st : Store) : Store :=
  { st with qCount := st.qCount + 1 }

/-- The store after one successful summary insert. -/
def insertSummary (st : Store) (total : ℚ) (ed : Int) : Store :=
  { events := st.events ++ [⟨st.nextId, summaryText total, ed, addDate ed 0 0 1⟩],
    nextId := st.nextId + 1, insCount := st.insCount + 1, qCount := st.qCount }

/-- The store after a successful global purge (including its query). -/
def purgeAll (st : Store) : Store :=
  { events := st.events.filter (fun e =>
      !((prefIds (st.events.filter (fun e =>
          containsTag ("Total Remaining".toList) e.summary && true))).contains e.id)),
    nextId := st.nextId, insCount := st.insCount, qCount := st.qCount + 1 }

/-- The aggregated total a failure-free query computes for the given bounds. -/
def rangeTotal (now lo hi : Int) (st : Store) : ℚ :=
  sumAmounts (st.events.filter (fun e =>
    containsTag ("Payment".toList) e.summary &&
      (decide (effectiveStart lo now ≤ e.start) && decide (e.start ≤ hi))))

theorem calcTotal_noFault (now lo hi : Int) (st : Store) :
    calculateTotalPayments noFault now lo hi st
      = some (rangeTotal now lo hi st, bumpQ st) := rfl

theorem countSummaries_bumpQ (st : Store) : countSummaries (bumpQ st) = countSummaries st :=
  rfl

theorem countSummaries_insertSummary (st : Store) (total : ℚ) (ed : Int) :
    countSummaries (insertSummary st total ed) = countSummaries st + 1 := by
  unfold countSummaries insertSummary
  exact countP_append_summary _ _ (summaryText_leading _)

theorem countSummaries_purgeAll (st : Store) : countSummaries (purgeAll st) = 0 := by
  unfold countSummaries purgeAll
  apply countSummaries_zero_of_purged
  intro e hmem hpref
  rw [List.mem_filter]
  refine ⟨hmem, ?_⟩
  rw [containsTag_of_leading _ _ hpref]
  rfl

theorem livePolicy_some (cfg : Config) (now : Int) (h : validPolicy cfg) :
    ∃ ed, liveEventDate cfg now = some ed := by
  rcases h with h | h | h <;> unfold liveEventDate <;> rw [h]
  · rw [if_pos rfl]
    exact ⟨_, rfl⟩
  · rw [if_neg (by decide), if_pos rfl]
    exact ⟨_, rfl⟩
  · rw [if_neg (by decide), if_neg (by decide), if_pos rfl]
    exact ⟨_, rfl⟩

theorem monthPolicy_some (cfg : Config) (year month : Int) (h : validPolicy cfg) :
    ∃ ed, monthEventDate cfg year month = some ed := by
  rcases h with h | h | h <;> unfold monthEventDate <;> rw [h]
  · rw [if_pos rfl]
    exact ⟨_, rfl⟩
  · rw [if_neg (by decide), if_pos rfl]
    exact ⟨_, rfl⟩
  · rw [if_neg (by decide), if_neg (by decide), if_pos rfl]
    exact ⟨_, rfl⟩

/-- Failure-free live reconciliation: purge all prefixed events, then append
the single fresh summary. -/
theorem manage_noFault (cfg : Config) (now : Int) (total : ℚ) (st : Store)
    (ed : Int) (hEd : liveEventDate cfg now = some ed) :
    manageTotalRemainingEvent noFault cfg now total st
      = .ok (insertSummary (purgeAll st) total ed) := by
  unfold manageTotalRemainingEvent
  rw [hEd]
  rw [queryEvents_noFault]
  dsimp only
  rw [purgeLoop_noFault]
  dsimp only
  rw [insEvent_noFault]
  rfl

/-- Failure-free window-month reconciliation: a bare insert (no purge in the
source). -/
theorem manageMonth_noFault (cfg : Config) (total : ℚ) (year month : Int)
    (st : Store) (ed : Int) (hEd : monthEventDate cfg year month = some ed) :
    manageTotalRemainingEventForMonth noFault cfg total year month st
      = .ok (insertSummary st total ed) := by
  unfold manageTotalRemainingEventForMonth
  simp only [hEd, insEvent_noFault]
  rfl

/-- Failure-free window loop: each offset performs one query and appends one
summary event. -/
theorem genFuture_noFault (cfg : Config) (now : Int) (h : validPolicy cfg) :
    ∀ lst st, ∃ st', genFutureLoop noFault cfg now lst st = .ok st'
      ∧ countSummaries st' = countSummaries st + lst.length
      ∧ st'.nextId = st.nextId + lst.length := by
  intro lst
  induction lst with
  | nil => intro st; exact ⟨st, rfl, by simp, by simp⟩
  | cons i rest ih =>
    intro st
    obtain ⟨ed, hEd⟩ := monthPolicy_some cfg (windowAnchor now i).1 (windowAnchor now i).2 h
    have hstep : genFutureLoop noFault cfg now (i :: rest) st
        = genFutureLoop noFault cfg now rest
            (insertSummary (bumpQ st)
              (rangeTotal now (windowStart now cfg.PayDate i) (windowEnd now cfg.PayDate i) st)
              ed) := by
      conv_lhs => rw [genFutureLoop, calcTotal_noFault]
      dsimp only
      rw [manageMonth_noFault _ _ _ _ _ _ hEd]
    obtain ⟨st', hrun, hcount, hnext⟩ := ih
      (insertSummary (bumpQ st)
        (rangeTotal now (windowStart now cfg.PayDate i) (windowEnd now cfg.PayDate i) st)
        ed)
    refine ⟨st', by rw [hstep]; exact hrun, ?_, ?_⟩
    · rw [hcount, countSummaries_insertSummary, countSummaries_bumpQ]
      simp only [List.length_cons]
      omega
    · rw [hnext]
      simp only [List.length_cons, insertSummary, bumpQ]
      omega

/-- Failure-free full pass: the two-query live reconciliation followed by the
11-month window leaves exactly 12 summary events and 12 fresh inserts. -/
theorem taskToRun_noFault (cfg : Config) (now : Int) (st : Store)
    (h : validPolicy cfg) :
    ∃ st', taskToRun noFault cfg now st = .ok st'
      ∧ countSummaries st' = 12 ∧ st'.nextId = st.nextId + 12 := by
  obtain ⟨ed, hEd⟩ := livePolicy_some cfg now h
  have hstep : taskToRun noFault cfg now st
      = generateFutureTotalRemainingEvents noFault cfg now
          (insertSummary (purgeAll (bumpQ st))
            (rangeTotal now (currentPeriod now cfg.PayDate).1
              (currentPeriod now cfg.PayDate).2 st) ed) := by
    unfold taskToRun
    rw [calcTotal_noFault]
    dsimp only
    rw [manage_noFault _ _ _ _ _ hEd]
  rw [hstep]
  unfold generateFutureTotalRemainingEvents
  obtain ⟨st', hrun, hc, hn⟩ := genFuture_noFault cfg now h windowOffsets
    (insertSummary (purgeAll (bumpQ st))
      (rangeTotal now (currentPeriod now cfg.PayDate).1
        (currentPeriod now cfg.PayDate).2 st) ed)
  refine ⟨st', hrun, ?_, ?_⟩
  · rw [hc, countSummaries_insertSummary, countSummaries_purgeAll]
    rfl
  · rw [hn]
    simp only [insertSummary, purgeAll, bumpQ, windowOffsets]
    rfl

/-- **C1** — For every initial store state, with no remote failures and no
concurrent writers, one full Window Driver pass (live-period reconciliation
followed by the 11 window-driven reconciliations) leaves the store with
exactly 12 summary events, one inserted per period processed; running the
pass a second time with unchanged inputs again leaves exactly 12 summary
events — no duplicates and no accumulation across passes. -/
theorem C1_window_pass_exactly_twelve_summaries (cfg : Config) (now : Int)
    (st : Store) (h : validPolicy cfg) :
    ∃ st₁, taskToRun noFault cfg now st = .ok st₁ ∧ countSummaries st₁ = 12
      ∧ st₁.nextId = st.nextId + 12
      ∧ ∃ st₂, taskToRun noFault cfg now st₁ = .ok st₂ ∧ countSummaries st₂ = 12
          ∧ st₂.nextId = st₁.nextId + 12 := by
  obtain ⟨st₁, h1, h2, h3⟩ := taskToRun_noFault cfg now st h
  obtain ⟨st₂, h4, h5, h6⟩ := taskToRun_noFault cfg now st₁ h
  exact ⟨st₁, h1, h2, h3, st₂, h4, h5, h6⟩

/-- Witness for C1 at a concrete configuration, instant and store. -/
theorem C1_window_pass_exactly_twelve_summaries_witness :
    validPolicy ⟨"Pay Date", "GMT", 16, 60⟩
      ∧ (∃ st₁, taskToRun noFault ⟨"Pay Date", "GMT", 16, 60⟩ (mkDate 2024 4 20 0)
            ⟨[], 0, 0, 0⟩ = .ok st₁
          ∧ countSummaries st₁ = 12 ∧ st₁.nextId = (0 : Nat) + 12
          ∧ ∃ st₂, taskToRun noFault ⟨"Pay Date", "GMT", 16, 60⟩ (mkDate 2024 4 20 0) st₁
              = .ok st₂ ∧ countSummaries st₂ = 12 ∧ st₂.nextId = st₁.nextId + 12) :=
  ⟨by decide,
    C1_window_pass_exactly_twelve_summaries ⟨"Pay Date", "GMT", 16, 60⟩
      (mkDate 2024 4 20 0) ⟨[], 0, 0, 0⟩ (by decide)⟩

/-- Projection of a pass result to the remote store it left behind. -/
def resStore : Except Store Store → Store
  | .ok s => s
  | .error s => s

/-- **C2 (counterexample)** — The claim states that *every* reconciliation
call, the 11 window-driven per-month calls included, purges all
"Total Remaining"-prefixed events from the entire store before its insert.
It is false: at this concrete input, a window-month reconciliation leaves the
pre-existing stale summary event in place and the store ends up with two
summary events. -/
theorem C2_counterexample_month_call_does_not_purge :
    (manageTotalRemainingEventForMonth noFault ⟨"Pay Date", "GMT", 16, 60⟩ 7 2024 5
        ⟨[⟨0, "Total Remaining £5.00".toList, 0, 86400⟩], 1, 0, 0⟩).isOk = true
  ∧ (⟨0, "Total Remaining £5.00".toList, 0, 86400⟩ : GEvent)
      ∈ (resStore (manageTotalRemainingEventForMonth noFault ⟨"Pay Date", "GMT", 16, 60⟩
          7 2024 5 ⟨[⟨0, "Total Remaining £5.00".toList, 0, 86400⟩], 1, 0, 0⟩)).events
  ∧ countSummaries (resStore (manageTotalRemainingEventForMonth noFault
        ⟨"Pay Date", "GMT", 16, 60⟩ 7 2024 5
        ⟨[⟨0, "Total Remaining £5.00".toList, 0, 86400⟩], 1, 0, 0⟩)) = 2 := by
  refine ⟨?_, ?_, ?_⟩ <;> decide

/-- **C2 (amended)** — Only the live-current-period reconciliation performs
the global purge-before-insert: it queries the whole store with no time
filter, deletes every event whose text begins with "Total Remaining", and
then inserts its fresh summary, leaving exactly one summary event whose id is
the fresh one.  The 11 window-driven per-month reconciliations perform no
purge at all: each appends its summary event, leaving every pre-existing
event (stale summaries included) in place. -/
theorem C2_amended_only_live_call_purges (cfg : Config) (h : validPolicy cfg) :
    (∀ total year month st, ∃ st' ev,
        manageTotalRemainingEventForMonth noFault cfg total year month st = .ok st'
        ∧ st'.events = st.events ++ [ev]
        ∧ goHasPrefix ("Total Remaining".toList) ev.summary = true)
  ∧ (∀ now total st, ∃ st',
        manageTotalRemainingEvent noFault cfg now total st = .ok st'
        ∧ countSummaries st' = 1
        ∧ ∀ e ∈ st'.events,
            goHasPrefix ("Total Remaining".toList) e.summary = true → e.id = st.nextId) := by
  constructor
  · intro total year month st
    obtain ⟨ed, hEd⟩ := monthPolicy_some cfg year month h
    refine ⟨insertSummary st total ed, ⟨st.nextId, summaryText total, ed, addDate ed 0 0 1⟩,
      manageMonth_noFault cfg total year month st ed hEd, rfl, summaryText_leading total⟩
  · intro now total st
    obtain ⟨ed, hEd⟩ := livePolicy_some cfg now h
    refine ⟨insertSummary (purgeAll st) total ed,
      manage_noFault cfg now total st ed hEd, ?_, ?_⟩
    · rw [countSummaries_insertSummary, countSummaries_purgeAll]
    · intro e he hpref
      have hz := countSummaries_purgeAll st
      unfold countSummaries at hz
      rw [List.countP_eq_zero] at hz
      unfold insertSummary at he
      dsimp only at he
      rw [List.mem_append] at he
      rcases he with he | he
      · exact absurd hpref (hz e he)
      · rw [List.mem_singleton] at he
        rw [he]
        rfl

/-- Witness for the amended C2 at a concrete valid configuration. -/
theorem C2_amended_only_live_call_purges_witness :
    validPolicy ⟨"Last Day of the Month", "GMT", 16, 60⟩
  ∧ ((∀ total year month st, ∃ st' ev,
        manageTotalRemainingEventForMonth noFault ⟨"Last Day of the Month", "GMT", 16, 60⟩
          total year month st = .ok st'
        ∧ st'.events = st.events ++ [ev]
        ∧ goHasPrefix ("Total Remaining".toList) ev.summary = true)
    ∧ (∀ now total st, ∃ st',
        manageTotalRemainingEvent noFault ⟨"Last Day of the Month", "GMT", 16, 60⟩
          now total st = .ok st'
        ∧ countSummaries st' = 1
        ∧ ∀ e ∈ st'.events,
            goHasPrefix ("Total Remaining".toList) e.summary = true → e.id = st.nextId)) :=
  ⟨by decide, C2_amended_only_live_call_purges ⟨"Last Day of the Month", "GMT", 16, 60⟩
    (by decide)⟩

/-! ## Fault injection: single failing remote operations (spec §4.4/§7) -/

/-- Fault spec whose only failure is deleting the event with id `tid`. -/
def failDelete (tid : Nat) : FaultSpec :=
  ⟨fun i => i == tid, fun _ => false, fun _ => false⟩

/-- Fault spec whose only failure is the insert call numbered `k`. -/
def failInsertAt (k : Nat) : FaultSpec :=
  ⟨fun _ => false, fun i => i == k, fun _ => false⟩

/-- Fault spec whose only failure is the query call numbered `k`. -/
def failQueryAt (k : Nat) : FaultSpec :=
  ⟨fun _ => false, fun _ => false, fun i => i == k⟩

theorem queryEvents_ok (fs : FaultSpec) (st : Store) (q : List Char)
    (r : Option (Int × Int)) (h : fs.queryFails st.qCount = false) :
    queryEvents fs st q r
      = some (st.events.filter (fun e =>
          containsTag q e.summary &&
            match r with
            | none => true
            | some (lo, hi) => decide (lo ≤ e.start) && decide (e.start ≤ hi)),
        bumpQ st) := by
  unfold queryEvents bumpQ
  rw [h]
  rfl

theorem calcTotal_ok (fs : FaultSpec) (now lo hi : Int) (st : Store)
    (h : fs.queryFails st.qCount = false) :
    calculateTotalPayments fs now lo hi st = some (rangeTotal now lo hi st, bumpQ st) := by
  unfold calculateTotalPayments
  rw [queryEvents_ok fs st _ _ h]
  rfl

theorem calcTotal_fail (fs : FaultSpec) (now lo hi : Int) (st : Store)
    (h : fs.queryFails st.qCount = true) :
    calculateTotalPayments fs now lo hi st = none := by
  unfold calculateTotalPayments queryEvents
  rw [h]
  rfl

theorem insEvent_ok (fs : FaultSpec) (st : Store) (s : List Char) (d1 d2 : Int)
    (h : fs.insertFails st.insCount = false) :
    insEvent fs st s d1 d2
      = some { events := st.events ++ [⟨st.nextId, s, d1, d2⟩],
               nextId := st.nextId + 1, insCount := st.insCount + 1,
               qCount := st.qCount } := by
  unfold insEvent
  rw [h]
  rfl

theorem insEvent_fail (fs : FaultSpec) (st : Store) (s : List Char) (d1 d2 : Int)
    (h : fs.insertFails st.insCount = true) :
    insEvent fs st s d1 d2 = none := by
  unfold insEvent
  rw [h]
  rfl

theorem delEvent_ok (fs : FaultSpec) (st : Store) (i : Nat)
    (h : fs.deleteFails i = false) :
    delEvent fs st i
      = some { st with events := st.events.filter (fun e => !(e.id == i)) } := by
  unfold delEvent
  rw [h]
  rfl

theorem delEvent_fail (fs : FaultSpec) (st : Store) (i : Nat)
    (h : fs.deleteFails i = true) :
    delEvent fs st i = none := by
  unfold delEvent
  rw [h]
  rfl

/-- Purge with no delete failures (generalizes `purgeLoop_noFault`). -/
theorem purgeLoop_delOk (fs : FaultSpec) (hdel : ∀ i, fs.deleteFails i = false) :
    ∀ (items : List GEvent) (st : Store),
    purgeLoop fs items st
      = .ok { st with
          events := st.events.filter (fun e => !((prefIds items).contains e.id)) } := by
  intro items
  induction items with
  | nil =>
    intro st
    simp [purgeLoop, prefIds]
  | cons e rest ih =>
    intro st
    by_cases hp : goHasPrefix ("Total Remaining".toList) e.summary = true
    · simp only [purgeLoop, hp, if_true, delEvent_ok fs _ _ (hdel e.id)]
      rw [ih]
      congr 1
      simp only [Store.mk.injEq, and_true, true_and]
      rw [List.filter_filter]
      apply List.filter_congr
      intro a _
      simp only [prefIds, List.filter_cons, hp, List.map_cons, List.contains_cons]
      cases h1 : a.id == e.id <;> cases h2 : (prefIds rest).contains a.id <;>
        simp [prefIds] at * <;> simp_all
    · have hp' : goHasPrefix ("Total Remaining".toList) e.summary = false := by
        simpa using hp
      simp only [purgeLoop, hp', Bool.false_eq_true, if_false]
      rw [ih]
      congr 2
      apply List.filter_congr
      intro a _
      simp only [prefIds, List.filter_cons, hp', Bool.false_eq_true, if_false]

/-- A delete failure on a prefixed queried event aborts the purge before any
insert, leaving the failed event (and every event not yet deleted) in place. -/
theorem purgeLoop_failDelete (tid : Nat) :
    ∀ (items : List GEvent) (st : Store),
    (∃ e ∈ items, goHasPrefix ("Total Remaining".toList) e.summary = true ∧ e.id = tid) →
    ∃ st', purgeLoop (failDelete tid) items st = .error st'
      ∧ st'.nextId = st.nextId ∧ st'.insCount = st.insCount
      ∧ (∀ e ∈ st.events, e.id = tid → e ∈ st'.events)
      ∧ (∀ e ∈ st'.events, e ∈ st.events) := by
  intro items
  induction items with
  | nil =>
    intro st h
    simp at h
  | cons e rest ih =>
    intro st hex
    by_cases hp : goHasPrefix ("Total Remaining".toList) e.summary = true
    · by_cases hid : e.id = tid
      · refine ⟨st, ?_, rfl, rfl, fun e' h _ => h, fun e' h => h⟩
        simp only [purgeLoop, hp, if_true]
        rw [delEvent_fail _ _ _ (by simp [failDelete, hid])]
      · have hdel : (failDelete tid).deleteFails e.id = false := by
          simp only [failDelete]
          rw [beq_eq_false_iff_ne]
          exact hid
        have hex' : ∃ e' ∈ rest,
            goHasPrefix ("Total Remaining".toList) e'.summary = true ∧ e'.id = tid := by
          obtain ⟨e', hmem, hp', hid'⟩ := hex
          rcases List.mem_cons.mp hmem with h | h
          · exact absurd (h ▸ hid') hid
          · exact ⟨e', h, hp', hid'⟩
        simp only [purgeLoop, hp, if_true, delEvent_ok _ _ _ hdel]
        obtain ⟨st', hrun, hn, hi, hpres, hsub⟩ := ih
          { st with events := st.events.filter (fun e' => !(e'.id == e.id)) } hex'
        refine ⟨st', hrun, hn, hi, ?_, ?_⟩
        · intro e'' hmem heq
          apply hpres
          · rw [List.mem_filter]
            refine ⟨hmem, ?_⟩
            have : (e''.id == e.id) = false := by
              rw [beq_eq_false_iff_ne]
              omega
            rw [this]
            rfl
          · exact heq
        · intro e'' hmem
          have := hsub e'' hmem
          rw [List.mem_filter] at this
          exact this.1
    · have hp' : goHasPrefix ("Total Remaining".toList) e.summary = false := by
        simpa using hp
      have hex' : ∃ e' ∈ rest,
          goHasPrefix ("Total Remaining".toList) e'.summary = true ∧ e'.id = tid := by
        obtain ⟨e', hmem, hpe, hid'⟩ := hex
        rcases List.mem_cons.mp hmem with h | h
        · rw [h] at hpe
          rw [hpe] at hp'
          cases hp'
        · exact ⟨e', h, hpe, hid'⟩
      simp only [purgeLoop, hp', Bool.false_eq_true, if_false]
      exact ih st hex'

theorem manageMonth_ok (fs : FaultSpec) (cfg : Config) (total : ℚ)
    (year month : Int) (st : Store) (ed : Int)
    (hEd : monthEventDate cfg year month = some ed)
    (hins : fs.insertFails st.insCount = false) :
    manageTotalRemainingEventForMonth fs cfg total year month st
      = .ok (insertSummary st total ed) := by
  unfold manageTotalRemainingEventForMonth
  simp only [hEd, insEvent_ok fs st _ _ _ hins]
  rfl

theorem manageMonth_insFail (fs : FaultSpec) (cfg : Config) (total : ℚ)
    (year month : Int) (st : Store) (ed : Int)
    (hEd : monthEventDate cfg year month = some ed)
    (hins : fs.insertFails st.insCount = true) :
    manageTotalRemainingEventForMonth fs cfg total year month st = .error st := by
  unfold manageTotalRemainingEventForMonth
  simp only [hEd, insEvent_fail fs st _ _ _ hins]

theorem manage_ok (fs : FaultSpec) (cfg : Config) (now : Int) (total : ℚ)
    (st : Store) (ed : Int) (hEd : liveEventDate cfg now = some ed)
    (hq : fs.queryFails st.qCount = false)
    (hdel : ∀ i, fs.deleteFails i = false)
    (hins : fs.insertFails st.insCount = false) :
    manageTotalRemainingEvent fs cfg now total st
      = .ok (insertSummary (purgeAll st) total ed) := by
  unfold manageTotalRemainingEvent
  rw [hEd]
  rw [queryEvents_ok fs st _ _ hq]
  dsimp only
  rw [purgeLoop_delOk fs hdel]
  dsimp only
  rw [insEvent_ok fs _ _ _ _ (by exact hins)]
  rfl

/-- If the insert call numbered `j` is the failing one and it falls inside
this window run, the loop reconciles every offset before it (one summary
insert each) and aborts at it, leaving the later offsets untouched. -/
theorem genFutureLoop_failInsert (cfg : Config) (now : Int) (j : Nat)
    (h : validPolicy cfg) :
    ∀ (lst : List Int) (st : Store), st.insCount ≤ j → j < st.insCount + lst.length →
    ∃ st', genFutureLoop (failInsertAt j) cfg now lst st = .error st'
      ∧ countSummaries st' = countSummaries st + (j - st.insCount)
      ∧ st'.nextId = st.nextId + (j - st.insCount)
      ∧ st'.insCount = j := by
  intro lst
  induction lst with
  | nil =>
    intro st h1 h2
    simp only [List.length_nil] at h2
    omega
  | cons i rest ih =>
    intro st h1 h2
    obtain ⟨ed, hEd⟩ := monthPolicy_some cfg (windowAnchor now i).1 (windowAnchor now i).2 h
    by_cases hj : st.insCount = j
    · refine ⟨bumpQ st, ?_, ?_, ?_, ?_⟩
      · conv_lhs => rw [genFutureLoop, calcTotal_ok _ _ _ _ _ rfl]
        dsimp only
        rw [manageMonth_insFail _ _ _ _ _ _ _ hEd
          (by simp only [failInsertAt, bumpQ]; rw [hj]; exact beq_self_eq_true j)]
      · rw [countSummaries_bumpQ]
        omega
      · simp only [bumpQ]
        omega
      · simp only [bumpQ]
        omega
    · have hins : (failInsertAt j).insertFails (bumpQ st).insCount = false := by
        simp only [failInsertAt, bumpQ]
        rw [beq_eq_false_iff_ne]
        exact hj
      have hstep : genFutureLoop (failInsertAt j) cfg now (i :: rest) st
          = genFutureLoop (failInsertAt j) cfg now rest
              (insertSummary (bumpQ st)
                (rangeTotal now (windowStart now cfg.PayDate i) (windowEnd now cfg.PayDate i) st)
                ed) := by
        conv_lhs => rw [genFutureLoop, calcTotal_ok _ _ _ _ _ rfl]
        dsimp only
        rw [manageMonth_ok _ _ _ _ _ _ _ hEd hins]
      have hc1 : (insertSummary (bumpQ st)
          (rangeTotal now (windowStart now cfg.PayDate i) (windowEnd now cfg.PayDate i) st)
          ed).insCount = st.insCount + 1 := rfl
      obtain ⟨st', hrun, hcount, hnext, hic⟩ := ih
        (insertSummary (bumpQ st)
          (rangeTotal now (windowStart now cfg.PayDate i) (windowEnd now cfg.PayDate i) st)
          ed)
        (by rw [hc1]; omega)
        (by rw [hc1]; simp only [List.length_cons] at h2; omega)
      refine ⟨st', by rw [hstep]; exact hrun, ?_, ?_, by rw [hic]⟩
      · rw [hcount, countSummaries_insertSummary, countSummaries_bumpQ, hc1]
        omega
      · rw [hnext]
        have : (insertSummary (bumpQ st)
            (rangeTotal now (windowStart now cfg.PayDate i) (windowEnd now cfg.PayDate i) st)
            ed).nextId = st.nextId + 1 := rfl
        rw [this, hc1]
        omega

/-- **C8** — Any store-operation failure aborts the entire pass with no retry
and no partial-success recovery:
(a) a failed delete stops the live reconciliation before its insert — nothing
is inserted, the event whose delete failed is still present, and no event not
deleted before the failure is touched;
(b) a failed live insert leaves the store with zero summary events (the
global purge already ran);
(c) a failure at window insert `j` keeps the live summary and the `j − 1`
earlier window summaries in their newly reconciled state (`j` summaries
present, `j` fresh ids consumed) and performs nothing for later offsets;
(d) a failed query aborts the pass with the store completely untouched. -/
theorem C8_store_failures_abort_pass :
    (∀ cfg now st (e₀ : GEvent), validPolicy cfg → e₀ ∈ st.events →
      goHasPrefix ("Total Remaining".toList) e₀.summary = true →
      ∃ st', taskToRun (failDelete e₀.id) cfg now st = .error st'
        ∧ st'.nextId = st.nextId ∧ st'.insCount = st.insCount
        ∧ e₀ ∈ st'.events ∧ ∀ e ∈ st'.events, e ∈ st.events)
  ∧ (∀ cfg now st, validPolicy cfg → st.insCount = 0 →
      ∃ st', taskToRun (failInsertAt 0) cfg now st = .error st'
        ∧ countSummaries st' = 0 ∧ st'.nextId = st.nextId)
  ∧ (∀ cfg now st (j : Nat), validPolicy cfg → st.insCount = 0 → 1 ≤ j → j ≤ 11 →
      ∃ st', taskToRun (failInsertAt j) cfg now st = .error st'
        ∧ countSummaries st' = j ∧ st'.nextId = st.nextId + j ∧ st'.insCount = j)
  ∧ (∀ cfg now st, st.qCount = 0 →
      taskToRun (failQueryAt 0) cfg now st = .error st) := by
  refine ⟨?parta, ?partb, ?partc, ?partd⟩
  case parta =>
    intro cfg now st e₀ h hmem hpref
    obtain ⟨ed, hEd⟩ := livePolicy_some cfg now h
    have hex : ∃ e ∈ (bumpQ st).events.filter (fun e =>
          containsTag ("Total Remaining".toList) e.summary && true),
        goHasPrefix ("Total Remaining".toList) e.summary = true ∧ e.id = e₀.id := by
      refine ⟨e₀, ?_, hpref, rfl⟩
      rw [List.mem_filter]
      refine ⟨hmem, ?_⟩
      rw [containsTag_of_leading _ _ hpref]
      rfl
    obtain ⟨st', hrun, hn, hi, hpres, hsub⟩ := purgeLoop_failDelete e₀.id _ (bumpQ (bumpQ st)) hex
    refine ⟨st', ?_, hn, hi, hpres e₀ hmem rfl, fun e he => hsub e he⟩
    unfold taskToRun
    rw [calcTotal_ok _ _ _ _ _ rfl]
    dsimp only
    unfold manageTotalRemainingEvent
    rw [hEd]
    rw [queryEvents_ok _ _ _ _ rfl]
    dsimp only
    rw [hrun]
  case partb =>
    intro cfg now st h hin
    obtain ⟨ed, hEd⟩ := livePolicy_some cfg now h
    refine ⟨purgeAll (bumpQ st), ?_, countSummaries_purgeAll _, rfl⟩
    unfold taskToRun
    rw [calcTotal_ok _ _ _ _ _ rfl]
    dsimp only
    unfold manageTotalRemainingEvent
    rw [hEd]
    rw [queryEvents_ok _ _ _ _ rfl]
    dsimp only
    rw [purgeLoop_delOk _ (fun _ => rfl)]
    dsimp only
    rw [insEvent_fail _ _ _ _ _
      (by show (failInsertAt 0).insertFails st.insCount = true; rw [hin]; rfl)]
    rfl
  case partc =>
    intro cfg now st j h hin hj1 hj11
    obtain ⟨ed, hEd⟩ := livePolicy_some cfg now h
    have hins : (failInsertAt j).insertFails (bumpQ st).insCount = false := by
      show (failInsertAt j).insertFails st.insCount = false
      simp only [failInsertAt]
      rw [hin, beq_eq_false_iff_ne]
      omega
    have hstep : taskToRun (failInsertAt j) cfg now st
        = genFutureLoop (failInsertAt j) cfg now windowOffsets
            (insertSummary (purgeAll (bumpQ st))
              (rangeTotal now (currentPeriod now cfg.PayDate).1
                (currentPeriod now cfg.PayDate).2 st) ed) := by
      unfold taskToRun
      rw [calcTotal_ok _ _ _ _ _ rfl]
      dsimp only
      rw [manage_ok _ _ _ _ _ _ hEd rfl (fun _ => rfl) hins]
      rfl
    obtain ⟨st', hrun, hcount, hnext, hic⟩ := genFutureLoop_failInsert cfg now j h
      windowOffsets
      (insertSummary (purgeAll (bumpQ st))
        (rangeTotal now (currentPeriod now cfg.PayDate).1
          (currentPeriod now cfg.PayDate).2 st) ed)
      (by show st.insCount + 1 ≤ j; omega)
      (by show j < st.insCount + 1 + 11; omega)
    refine ⟨st', by rw [hstep]; exact hrun, ?_, ?_, hic⟩
    · rw [hcount, countSummaries_insertSummary, countSummaries_purgeAll]
      have : (insertSummary (purgeAll (bumpQ st))
          (rangeTotal now (currentPeriod now cfg.PayDate).1
            (currentPeriod now cfg.PayDate).2 st) ed).insCount = st.insCount + 1 := rfl
      rw [this, hin]
      omega
    · rw [hnext]
      have h1 : (insertSummary (purgeAll (bumpQ st))
          (rangeTotal now (currentPeriod now cfg.PayDate).1
            (currentPeriod now cfg.PayDate).2 st) ed).insCount = st.insCount + 1 := rfl
      have h2 : (insertSummary (purgeAll (bumpQ st))
          (rangeTotal now (currentPeriod now cfg.PayDate).1
            (currentPeriod now cfg.PayDate).2 st) ed).nextId = st.nextId + 1 := rfl
      rw [h1, h2, hin]
      omega
  case partd =>
    intro cfg now st hq0
    unfold taskToRun
    rw [calcTotal_fail _ _ _ _ _ (by rw [hq0]; rfl)]

/-- Witness for C8 at concrete configurations, stores and fault points. -/
theorem C8_store_failures_abort_pass_witness :
    (validPolicy ⟨"Pay Date", "GMT", 16, 60⟩
      ∧ (⟨0, "Total Remaining £5.00".toList, 0, 86400⟩ : GEvent)
          ∈ (⟨[⟨0, "Total Remaining £5.00".toList, 0, 86400⟩], 1, 0, 0⟩ : Store).events
      ∧ goHasPrefix ("Total Remaining".toList)
          (⟨0, "Total Remaining £5.00".toList, 0, 86400⟩ : GEvent).summary = true)
  ∧ (∃ st', taskToRun (failDelete (⟨0, "Total Remaining £5.00".toList, 0, 86400⟩ : GEvent).id)
        ⟨"Pay Date", "GMT", 16, 60⟩ (mkDate 2024 4 20 0)
        ⟨[⟨0, "Total Remaining £5.00".toList, 0, 86400⟩], 1, 0, 0⟩ = .error st'
      ∧ st'.nextId = (1 : Nat) ∧ st'.insCount = (0 : Nat)
      ∧ (⟨0, "Total Remaining £5.00".toList, 0, 86400⟩ : GEvent) ∈ st'.events
      ∧ ∀ e ∈ st'.events,
          e ∈ (⟨[⟨0, "Total Remaining £5.00".toList, 0, 86400⟩], 1, 0, 0⟩ : Store).events)
  ∧ (∃ st', taskToRun (failInsertAt 0) ⟨"Pay Date", "GMT", 16, 60⟩ (mkDate 2024 4 20 0)
        ⟨[], 0, 0, 0⟩ = .error st' ∧ countSummaries st' = 0 ∧ st'.nextId = (0 : Nat))
  ∧ (∃ st', taskToRun (failInsertAt 5) ⟨"Pay Date", "GMT", 16, 60⟩ (mkDate 2024 4 20 0)
        ⟨[], 0, 0, 0⟩ = .error st'
      ∧ countSummaries st' = 5 ∧ st'.nextId = (0 : Nat) + 5 ∧ st'.insCount = 5)
  ∧ taskToRun (failQueryAt 0) ⟨"Pay Date", "GMT", 16, 60⟩ (mkDate 2024 4 20 0)
      ⟨[], 0, 0, 0⟩ = .error ⟨[], 0, 0, 0⟩ :=
  ⟨⟨by decide, by decide, by decide⟩,
    C8_store_failures_abort_pass.1 _ _ _ _ (by decide) (by decide) (by decide),
    C8_store_failures_abort_pass.2.1 _ _ _ (by decide) (by decide),
    C8_store_failures_abort_pass.2.2.1 _ _ _ 5 (by decide) (by decide) (by decide) (by decide),
    C8_store_failures_abort_pass.2.2.2 _ _ _ (by decide)⟩

/-! ## Claims about the amount extractor and the configuration -/

/-- Step the extractor through a found token. -/
theorem parseAmount_eq (cs tok : List Char) (h : findToken cs = some tok) :
    parseAmountFromSummary cs = parseDecimal (stripGlyphSep tok) := by
  unfold parseAmountFromSummary
  rw [h]

/-- No token means no amount. -/
theorem parseAmount_none (cs : List Char) (h : findToken cs = none) :
    parseAmountFromSummary cs = none := by
  unfold parseAmountFromSummary
  rw [h]

/-- Evaluate `parseDecimal` on a pure-integer cleaned token. -/
theorem parseDecimal_int (cs ds : List Char)
    (h1 : cs.takeWhile isDigitC = ds) (h2 : cs.dropWhile isDigitC = [])
    (h3 : ds.isEmpty = false) :
    parseDecimal cs = some ((digitsValN ds : ℚ)) := by
  unfold parseDecimal
  rw [h1, h2]
  dsimp only
  rw [h3]
  simp

/-- Evaluate `parseDecimal` on a cleaned token with a fractional part. -/
theorem parseDecimal_frac (cs ds fs : List Char)
    (h1 : cs.takeWhile isDigitC = ds) (h2 : cs.dropWhile isDigitC = '.' :: fs)
    (h3 : ds.isEmpty = false) (h4 : fs.isEmpty = false)
    (h5 : fs.all isDigitC = true) :
    parseDecimal cs
      = some ((digitsValN ds : ℚ) + (digitsValN fs : ℚ) / (10 : ℚ) ^ fs.length) := by
  unfold parseDecimal
  rw [h1, h2]
  dsimp only
  rw [h3]
  simp [h4, h5]

/-- **C6** — The amount extractor returns 1250.00 (found) on
"Payment £1,250.00", 99.00 (found) on "Payment 99", not-found on
"no digits here", and 12345678.00 (found) on "£12,345,678": it matches the
first currency-like token (optional glyph, digits optionally grouped in 3s by
commas, optional 1–2 digit fraction), strips glyph and separators, and parses
the remainder as base-10 decimal. -/
theorem C6_amount_extractor_examples :
    parseAmountFromSummary ("Payment £1,250.00".toList) = some 1250
  ∧ parseAmountFromSummary ("Payment 99".toList) = some 99
  ∧ parseAmountFromSummary ("no digits here".toList) = none
  ∧ parseAmountFromSummary ("£12,345,678".toList) = some 12345678 := by
  refine ⟨?_, ?_, ?_, ?_⟩
  · rw [parseAmount_eq _ ("£1,250.00".toList) (by decide),
      show stripGlyphSep ("£1,250.00".toList) = "1250.00".toList from by decide,
      parseDecimal_frac _ ("1250".toList) ("00".toList)
        (by decide) (by decide) (by decide) (by decide) (by decide),
      show digitsValN ("1250".toList) = 1250 from by decide,
      show digitsValN ("00".toList) = 0 from by decide]
    norm_num
  · rw [parseAmount_eq _ ("99".toList) (by decide),
      show stripGlyphSep ("99".toList) = "99".toList from by decide,
      parseDecimal_int _ ("99".toList) (by decide) (by decide) (by decide),
      show digitsValN ("99".toList) = 99 from by decide]
    norm_num
  · exact parseAmount_none _ (by decide)
  · rw [parseAmount_eq _ ("£12,345,678".toList) (by decide),
      show stripGlyphSep ("£12,345,678".toList) = "12345678".toList from by decide,
      parseDecimal_int _ ("12345678".toList) (by decide) (by decide) (by decide),
      show digitsValN ("12345678".toList) = 12345678 from by decide]
    norm_num

/-- **C9 (evaluation at the failing input)** — With the configuration
environment variables unset (read as empty strings), the loaded configuration
is `{"First Day of the Month", "GMT", payDate = 1, tickInterval = 1 minute}`:
the anchor day does fall back to 1, but the tick interval falls back to **1**
minute, not the documented 60 (the code's own log message says "using default
value 60 minutes" while assigning 1). -/
theorem C9_defaults_at_empty_environment :
    getConfig (fun _ => "")
      = ⟨"First Day of the Month", "GMT", 1, 1⟩
  ∧ (getConfig (fun _ => "")).TickIntervalMinutes ≠ 60
  ∧ (getConfig (fun _ => "")).PayDate = 1 := by
  refine ⟨?_, ?_, ?_⟩ <;> decide

theorem ratFloor_bridge (q : ℚ) : q.floor = ⌊q⌋ := rfl

theorem floor_1234 : ((1234 : ℚ) * 100 + 1 / 2).floor = 123400 := by
  have h : ((1234 : ℚ) * 100 + 1 / 2) = ((123400 * 2 + 1 : ℤ) : ℚ) / ((2 : ℕ) : ℚ) := by
    norm_num
  rw [ratFloor_bridge, h, Rat.floor_intCast_div_natCast]
  decide

theorem fmt_1234 : fmtMoney (1234 : ℚ) = "1234.00".toList := by
  unfold fmtMoney
  dsimp only
  rw [floor_1234]
  decide

theorem sumtext_1234 : summaryText (1234 : ℚ) = "Total Remaining £1234.00".toList := by
  unfold summaryText
  rw [fmt_1234]
  decide

-- parser defs (copies)

theorem digit_ne (c : Char) (h : isDigitC c = true) :
    ((c == ',') = false) ∧ ((c == '.') = false) ∧ ((c == '£') = false) := by
  refine ⟨?_, ?_, ?_⟩ <;>
  · rw [beq_eq_false_iff_ne]
    rintro rfl
    exact absurd h (by decide)

theorem takeDigits_three (a b c : Char) (d : Char) (t : List Char)
    (ha : isDigitC a = true) (hb : isDigitC b = true) (hc : isDigitC c = true) :
    takeDigits 3 (a :: b :: c :: d :: t) = ([a, b, c], d :: t) := by
  simp [takeDigits, ha, hb, hc]

theorem takeGroups_nogroup (n : Nat) (c : Char) (cs : List Char) (h : (c == ',') = false) :
    takeGroups n (c :: cs) = ([], c :: cs) := by
  cases n with
  | zero => rfl
  | succ m => simp [takeGroups, h]

theorem takeFrac_nofrac (c : Char) (cs : List Char) (h : (c == '.') = false) :
    takeFrac (c :: cs) = ([], c :: cs) := by
  simp [takeFrac, h]

theorem matchCore_nondigit (c : Char) (cs : List Char) (h : isDigitC c = false) :
    matchCore (c :: cs) = none := by
  simp [matchCore, h]

theorem matchCore_longrun (ds post : List Char) (hds : ds.all isDigitC = true)
    (hlen : 4 ≤ ds.length) :
    matchCore (ds ++ post) = some (ds.take 3) := by
  obtain ⟨a, b, c, d, t, rfl⟩ : ∃ a b c d t, ds = a :: b :: c :: d :: t := by
    match ds, hlen with
    | a :: b :: c :: d :: t, _ => exact ⟨a, b, c, d, t, rfl⟩
  simp only [List.all_cons, Bool.and_eq_true] at hds
  obtain ⟨ha, hb, hc, hd, -⟩ := hds
  have hne := digit_ne d hd
  simp only [List.cons_append, matchCore, ha, if_true,
    takeDigits_three a b c d (t ++ post) ha hb hc,
    takeGroups_nogroup _ d _ hne.1, takeFrac_nofrac d _ hne.2.1]
  simp [List.take]

theorem matchToken_digitrun (ds post : List Char) (hds : ds.all isDigitC = true)
    (hlen : 4 ≤ ds.length) :
    matchToken (ds ++ post) = some (ds.take 3) := by
  obtain ⟨a, t, rfl⟩ : ∃ a t, ds = a :: t := by
    match ds, hlen with
    | a :: t, _ => exact ⟨a, t, rfl⟩
  have ha : isDigitC a = true := by
    simp only [List.all_cons, Bool.and_eq_true] at hds
    exact hds.1
  have hne := digit_ne a ha
  rw [List.cons_append, matchToken, hne.2.2]
  · exact matchCore_longrun (a :: t) post hds hlen

theorem findToken_cons (c : Char) (cs : List Char) :
    findToken (c :: cs) = match matchToken (c :: cs) with
      | some t => some t
      | none => findToken cs := rfl

theorem findToken_skip (pre ds post : List Char)
    (hpre : pre.all (fun c => !isDigitC c) = true)
    (hds : ds.all isDigitC = true) (hlen : 4 ≤ ds.length) :
    findToken (pre ++ (ds ++ post)) = some (ds.take 3)
    ∨ findToken (pre ++ (ds ++ post)) = some ('£' :: ds.take 3) := by
  induction pre with
  | nil =>
    left
    rw [List.nil_append]
    obtain ⟨a, t, rfl⟩ : ∃ a t, ds = a :: t := by
      match ds, hlen with
      | a :: t, _ => exact ⟨a, t, rfl⟩
    rw [List.cons_append, findToken_cons, ← List.cons_append,
      matchToken_digitrun (a :: t) post hds hlen]
  | cons p pre ih =>
    simp only [List.all_cons, Bool.and_eq_true] at hpre
    obtain ⟨hp, hpre'⟩ := hpre
    have hpd : isDigitC p = false := by
      cases hq : isDigitC p
      · rfl
      · rw [hq] at hp; exact absurd hp (by decide)
    have ihx := ih hpre'
    rw [List.cons_append, findToken_cons]
    cases hpound : (p == '£') with
    | false =>
      rw [show matchToken (p :: (pre ++ (ds ++ post)))
            = matchCore (p :: (pre ++ (ds ++ post))) by
          rw [matchToken, hpound]
          simp]
      rw [matchCore_nondigit p _ hpd]
      exact ihx
    | true =>
      have hpe : p = '£' := eq_of_beq hpound
      subst hpe
      rw [show matchToken ('£' :: (pre ++ (ds ++ post)))
            = (matchCore (pre ++ (ds ++ post))).map ('£' :: ·) by
          rw [matchToken]
          simp]
      cases pre with
      | nil =>
        right
        rw [List.nil_append] at *
        obtain ⟨a, t, rfl⟩ : ∃ a t, ds = a :: t := by
          match ds, hlen with
          | a :: t, _ => exact ⟨a, t, rfl⟩
        rw [matchCore_longrun (a :: t) post hds hlen]
        rfl
      | cons q pre2 =>
        simp only [List.all_cons, Bool.and_eq_true] at hpre'
        have hqd : isDigitC q = false := by
          cases hq : isDigitC q
          · rfl
          · rw [hq] at hpre'; exact absurd hpre'.1 (by decide)
        rw [List.cons_append, matchCore_nondigit q _ hqd]
        exact ihx

theorem takeWhile_of_all {α : Type} (p : α → Bool) (l : List α) (h : l.all p = true) :
    l.takeWhile p = l ∧ l.dropWhile p = [] := by
  induction l with
  | nil => simp
  | cons a t ih =>
    simp only [List.all_cons, Bool.and_eq_true] at h
    obtain ⟨ha, ht⟩ := h
    obtain ⟨h1, h2⟩ := ih ht
    constructor
    · rw [List.takeWhile_cons, ha]
      simp [h1]
    · rw [List.dropWhile_cons, ha]
      simp [h2]

theorem stripGlyphSep_digits (ds : List Char) (h : ds.all isDigitC = true) :
    stripGlyphSep ds = ds := by
  unfold stripGlyphSep
  rw [List.filter_eq_self]
  intro c hc
  have hd := List.all_eq_true.mp h c hc
  have hne := digit_ne c hd
  rw [hne.1, hne.2.2]
  rfl

theorem take3_all_digits (ds : List Char) (h : ds.all isDigitC = true) :
    (ds.take 3).all isDigitC = true :=
  List.all_eq_true.mpr (fun x hx => List.all_eq_true.mp h x (List.take_subset 3 ds hx))

/-- **C10** — For every input whose first maximal digit run is four or more
digits long (no digits before it, any text after it), the amount extractor
returns found with the numeric value of only the first three digits of that
run: the grouped alternative of the pattern is preferred and matches a
3-digit prefix, the following digit stops both the group and fraction parts.
Concretely "£1234.56" parses to 123 and "Payment 5000" to 500, and the
formatted summary text of the total 1234 ("Total Remaining £1234.00") does
not round-trip through the extractor. -/
theorem C10_long_digit_runs_truncated :
    (∀ pre ds post : List Char,
        (pre.all fun c => !isDigitC c) = true →
        ds.all isDigitC = true → 4 ≤ ds.length →
        parseAmountFromSummary (pre ++ (ds ++ post))
          = some ((digitsValN (ds.take 3) : ℚ)))
  ∧ parseAmountFromSummary ("£1234.56".toList) = some 123
  ∧ parseAmountFromSummary ("Payment 5000".toList) = some 500
  ∧ parseAmountFromSummary (summaryText (1234 : ℚ)) ≠ some ((1234 : ℚ)) := by
  have main : ∀ pre ds post : List Char,
      (pre.all fun c => !isDigitC c) = true →
      ds.all isDigitC = true → 4 ≤ ds.length →
      parseAmountFromSummary (pre ++ (ds ++ post))
        = some ((digitsValN (ds.take 3) : ℚ)) := by
    intro pre ds post hpre hds hlen
    have htake := take3_all_digits ds hds
    have hstrip := stripGlyphSep_digits _ htake
    have hne : (ds.take 3).isEmpty = false := by
      obtain ⟨a, t, rfl⟩ : ∃ a t, ds = a :: t := by
        match ds, hlen with
        | a :: t, _ => exact ⟨a, t, rfl⟩
      rfl
    obtain ⟨htw, hdw⟩ := takeWhile_of_all isDigitC (ds.take 3) htake
    have hdec := parseDecimal_int _ _ htw hdw hne
    rcases findToken_skip pre ds post hpre hds hlen with h | h
    · rw [parseAmount_eq _ _ h, hstrip, hdec]
    · rw [parseAmount_eq _ _ h,
        show stripGlyphSep ('£' :: ds.take 3) = stripGlyphSep (ds.take 3) from rfl,
        hstrip, hdec]
  refine ⟨main, ?_, ?_, ?_⟩
  · rw [parseAmount_eq _ ("£123".toList) (by decide),
      show stripGlyphSep ("£123".toList) = "123".toList from by decide,
      parseDecimal_int _ ("123".toList) (by decide) (by decide) (by decide),
      show digitsValN ("123".toList) = 123 from by decide]
    norm_num
  · rw [parseAmount_eq _ ("500".toList) (by decide),
      show stripGlyphSep ("500".toList) = "500".toList from by decide,
      parseDecimal_int _ ("500".toList) (by decide) (by decide) (by decide),
      show digitsValN ("500".toList) = 500 from by decide]
    norm_num
  · rw [sumtext_1234,
      parseAmount_eq _ ("£123".toList) (by decide),
      show stripGlyphSep ("£123".toList) = "123".toList from by decide,
      parseDecimal_int _ ("123".toList) (by decide) (by decide) (by decide),
      show digitsValN ("123".toList) = 123 from by decide]
    intro hEq
    have : ((123 : ℕ) : ℚ) = 1234 := Option.some.inj hEq
    norm_num at this

/-! ## Period arithmetic (`getPaymentPeriodDates`, `currentPeriod`, window
driver geometry): helper lemmas -/

theorem normYM_idem (y m : Int) :
    normYM (normYM y m).1 (normYM y m).2 = normYM y m := by
  have h := normYM_add y m 0
  rw [add_zero, add_zero] at h
  exact h

theorem mkDate_congr (y1 m1 y2 m2 d s : Int) (h : normYM y1 m1 = normYM y2 m2) :
    mkDate y1 m1 d s = mkDate y2 m2 d s := by
  unfold mkDate
  rw [h]

theorem mkDate_norm (y m d s : Int) :
    mkDate y m d s = mkDate (normYM y m).1 (normYM y m).2 d s :=
  mkDate_congr _ _ _ _ _ _ (normYM_idem y m).symm

theorem addDate_mkDate (y m d s yr mo dy : Int) (h : ValidCivil y m d s) :
    addDate (mkDate y m d s) yr mo dy = mkDate (y + yr) (m + mo) (d + dy) s := by
  obtain ⟨h1, h2, h3, h4⟩ := mkDate_fields y m d s h
  unfold addDate
  rw [h1, h2, h3, h4]

/-- Civil fields of `mkDate` after month normalization (no day carry). -/
theorem mkDate_fields_norm (y m d s : Int) (hs1 : 0 ≤ s) (hs2 : s < 86400)
    (hd1 : 1 ≤ d) (hd2 : d ≤ monthLen (normYM y m).1 (normYM y m).2) :
    tYear (mkDate y m d s) = (normYM y m).1
    ∧ tMonth (mkDate y m d s) = (normYM y m).2
    ∧ tDay (mkDate y m d s) = d ∧ tSec (mkDate y m d s) = s := by
  have hsp := normYM_spec y m
  have hv : ValidCivil (normYM y m).1 (normYM y m).2 d s :=
    ⟨hsp.1, hsp.2.1, hd1, hd2, hs1, hs2⟩
  rw [mkDate_norm y m d s]
  exact mkDate_fields _ _ _ _ hv

/-- Stepping the month argument of `mkDate` advances the instant by exactly
the length of the (normalized) current month. -/
theorem mkDate_month_step (y m d s : Int) :
    mkDate y (m + 1) d s
      = mkDate y m d s + 86400 * monthLen (normYM y m).1 (normYM y m).2 := by
  have hsp := normYM_spec y m
  have hsucc := monthFirst_succ (normYM y m).1 (normYM y m).2 hsp.1 hsp.2.1
  have hnadd := normYM_add y m 1
  unfold monthFirst at hsucc
  rw [hnadd] at hsucc
  have hd1 := daysFromCivil_day (normYM y (m + 1)).1 (normYM y (m + 1)).2 d
  have hd2 := daysFromCivil_day (normYM y m).1 (normYM y m).2 d
  unfold mkDate
  omega

/-- Civil fields of `mkDate` with a single day carry into the next month. -/
theorem mkDate_fields_carry (y m d s : Int) (hs1 : 0 ≤ s) (hs2 : s < 86400)
    (hd1 : monthLen (normYM y m).1 (normYM y m).2 < d)
    (hd2 : d ≤ monthLen (normYM y m).1 (normYM y m).2 + 28) :
    tYear (mkDate y m d s) = (normYM y (m + 1)).1
    ∧ tMonth (mkDate y m d s) = (normYM y (m + 1)).2
    ∧ tDay (mkDate y m d s) = d - monthLen (normYM y m).1 (normYM y m).2
    ∧ tSec (mkDate y m d s) = s := by
  have hsp := normYM_spec y m
  have hsp1 := normYM_spec y (m + 1)
  have hlen := monthLen_bounds (normYM y m).1 (normYM y m).2 hsp.1 hsp.2.1
  have hlen1 := monthLen_bounds (normYM y (m + 1)).1 (normYM y (m + 1)).2
    hsp1.1 hsp1.2.1
  have hsucc := monthFirst_succ (normYM y m).1 (normYM y m).2 hsp.1 hsp.2.1
  unfold monthFirst at hsucc
  rw [normYM_add y m 1] at hsucc
  have heq : mkDate y m d s
      = mkDate y (m + 1) (d - monthLen (normYM y m).1 (normYM y m).2) s := by
    unfold mkDate
    have hda := daysFromCivil_day (normYM y m).1 (normYM y m).2 d
    have hdb := daysFromCivil_day (normYM y (m + 1)).1 (normYM y (m + 1)).2
      (d - monthLen (normYM y m).1 (normYM y m).2)
    omega
  rw [heq]
  exact mkDate_fields_norm y (m + 1) _ s hs1 hs2 (by omega) (by omega)

theorem windowStart_def (now pd i : Int) :
    windowStart now pd i
      = mkDate (tYear (addDate now 0 i 0)) (tMonth (addDate now 0 i 0)) pd 0 := rfl

theorem windowEnd_def (now pd i : Int) :
    windowEnd now pd i
      = (if tMonth (addDate now 0 i 0) = 12 then
          mkDate (tYear (addDate now 0 i 0) + 1) 1 pd 0 - 1
        else
          mkDate (tYear (addDate now 0 i 0)) (tMonth (addDate now 0 i 0) + 1) pd 0
            - 1) := rfl

theorem C10_long_digit_runs_truncated_witness :
    parseAmountFromSummary ("Pay ".toList ++ ("5000".toList ++ " now".toList))
      = some ((digitsValN (("5000".toList).take 3) : ℚ)) :=
  C10_long_digit_runs_truncated.1 ("Pay ".toList) ("5000".toList) (" now".toList)
    (by decide) (by decide) (by decide)

/-- Window period geometry when the reference day causes no carry
(`D ≤ 28`): the offset-`i` window is anchored `i` months after the
reference month and runs from the pay date to the next pay date minus one
second. -/
theorem window_geometry (Y M D s pd i : Int) (hv : ValidCivil Y M D s)
    (hD : D ≤ 28) :
    windowStart (mkDate Y M D s) pd i = mkDate Y (M + i) pd 0
    ∧ windowEnd (mkDate Y M D s) pd i = mkDate Y (M + i + 1) pd 0 - 1 := by
  obtain ⟨hm1, hm2, hd1, hd2, hs1, hs2⟩ := hv
  have hadd : addDate (mkDate Y M D s) 0 i 0 = mkDate Y (M + i) D s := by
    have h := addDate_mkDate Y M D s 0 i 0 ⟨hm1, hm2, hd1, hd2, hs1, hs2⟩
    rw [h, add_zero, add_zero]
  have hspMi := normYM_spec Y (M + i)
  have hlenMi := monthLen_bounds (normYM Y (M + i)).1 (normYM Y (M + i)).2
    hspMi.1 hspMi.2.1
  have hfld := mkDate_fields_norm Y (M + i) D s hs1 hs2 hd1 (by omega)
  have hY : tYear (addDate (mkDate Y M D s) 0 i 0) = (normYM Y (M + i)).1 := by
    rw [hadd]; exact hfld.1
  have hM : tMonth (addDate (mkDate Y M D s) 0 i 0) = (normYM Y (M + i)).2 := by
    rw [hadd]; exact hfld.2.1
  constructor
  · rw [windowStart_def, hY, hM]
    exact mkDate_congr _ _ _ _ _ _ (normYM_idem Y (M + i))
  · rw [windowEnd_def, hY, hM]
    have hnext : normYM (normYM Y (M + i)).1 ((normYM Y (M + i)).2 + 1)
        = normYM Y (M + i + 1) := normYM_add Y (M + i) 1
    split
    · rename_i h12
      have : normYM ((normYM Y (M + i)).1 + 1) 1 = normYM Y (M + i + 1) := by
        rw [← hnext, h12]
        unfold normYM
        refine Prod.ext ?_ ?_ <;> simp <;> omega
      rw [mkDate_congr _ _ _ _ pd 0 this]
    · rw [mkDate_congr _ _ _ _ pd 0 hnext]

/-- Every future window (any carry situation) starts at the pay date of a
month at least one month after the reference month. -/
theorem windowStart_cases (Y M D s pd i : Int) (hv : ValidCivil Y M D s) :
    windowStart (mkDate Y M D s) pd i = mkDate Y (M + i) pd 0
    ∨ windowStart (mkDate Y M D s) pd i = mkDate Y (M + i + 1) pd 0 := by
  obtain ⟨hm1, hm2, hd1, hd2, hs1, hs2⟩ := hv
  have hlenM := monthLen_bounds Y M hm1 hm2
  have hadd : addDate (mkDate Y M D s) 0 i 0 = mkDate Y (M + i) D s := by
    have h := addDate_mkDate Y M D s 0 i 0 ⟨hm1, hm2, hd1, hd2, hs1, hs2⟩
    rw [h, add_zero, add_zero]
  have hspMi := normYM_spec Y (M + i)
  have hlenMi := monthLen_bounds (normYM Y (M + i)).1 (normYM Y (M + i)).2
    hspMi.1 hspMi.2.1
  by_cases hcarry : D ≤ monthLen (normYM Y (M + i)).1 (normYM Y (M + i)).2
  · left
    have hfld := mkDate_fields_norm Y (M + i) D s hs1 hs2 hd1 hcarry
    rw [windowStart_def, hadd, hfld.1, hfld.2.1]
    exact mkDate_congr _ _ _ _ _ _ (normYM_idem Y (M + i))
  · right
    have hfld := mkDate_fields_carry Y (M + i) D s hs1 hs2 (by omega) (by omega)
    rw [windowStart_def, hadd, hfld.1, hfld.2.1]
    exact mkDate_congr _ _ _ _ _ _ (normYM_idem Y (M + i + 1))

/-- A valid instant is strictly before the pay date of any strictly later
month. -/
theorem mkDate_lt_future (Y M D s pd j : Int) (hv : ValidCivil Y M D s)
    (hpd : 1 ≤ pd) (hj : 1 ≤ j) :
    mkDate Y M D s < mkDate Y (M + j) pd 0 := by
  obtain ⟨hm1, hm2, hd1, hd2, hs1, hs2⟩ := hv
  have hlenM := monthLen_bounds Y M hm1 hm2
  have hbase : mkDate Y M D s < mkDate Y (M + 1) pd 0 := by
    have hstep := mkDate_month_step Y M pd 0
    have hid : normYM Y M = (Y, M) := normYM_id Y M hm1 hm2
    rw [hid] at hstep
    dsimp only at hstep
    have hda := daysFromCivil_day Y M D
    have hdb := daysFromCivil_day Y M pd
    have hmk1 : mkDate Y M D s = 86400 * daysFromCivil Y M D + s := by
      unfold mkDate
      rw [hid]
    have hmk2 : mkDate Y M pd 0 = 86400 * daysFromCivil Y M pd + 0 := by
      unfold mkDate
      rw [hid]
    omega
  obtain ⟨k, hk⟩ : ∃ k : Nat, j = 1 + (k : Int) := ⟨(j - 1).toNat, by omega⟩
  subst hk
  have hchain : ∀ k : Nat, mkDate Y (M + 1) pd 0 ≤ mkDate Y (M + 1 + (k : Int)) pd 0 := by
    intro k
    induction k with
    | zero => simp
    | succ n ihn =>
      have hstep := mkDate_month_step Y (M + 1 + (n : Int)) pd 0
      have hspn := normYM_spec Y (M + 1 + (n : Int))
      have hlenn := monthLen_bounds (normYM Y (M + 1 + (n : Int))).1
        (normYM Y (M + 1 + (n : Int))).2 hspn.1 hspn.2.1
      have hcast : M + 1 + ((n + 1 : Nat) : Int) = M + 1 + (n : Int) + 1 := by
        push_cast
        ring
      rw [hcast]
      omega
  have := hchain k
  have hrw : M + (1 + (k : Int)) = M + 1 + (k : Int) := by ring
  rw [hrw]
  omega

/-- **C5 (counterexample)** — With `payDateDay = 31` and reference date
2023-03-10 (day 10 < 31), the claimed period start "payDateDay of the
previous month" (February 31) does not exist; the code's
`time.Date`-normalized start rolls over to March 3, 2023 — its civil fields
are year 2023, month 3, day 3, refuting the claimed start for pay dates
beyond the previous month's length. -/
theorem C5_counterexample_payday31_rolls_over :
    tYear ((currentPeriod (mkDate 2023 3 10 0) 31).1) = 2023
  ∧ tMonth ((currentPeriod (mkDate 2023 3 10 0) 31).1) = 3
  ∧ tDay ((currentPeriod (mkDate 2023 3 10 0) 31).1) = 3 := by
  refine ⟨?_, ?_, ?_⟩ <;> decide

/-- **C5 (amended)** — For pay dates that exist in every month
(`1 ≤ payDateDay ≤ 28`) and a valid reference date: if the reference
day-of-month is ≥ payDateDay the containing period starts on payDateDay of
the reference month, otherwise on payDateDay of the previous month (January
wrapping to December of the previous year), and the period end is payDateDay
of the following month minus one second (December-anchored periods ending in
January of the next year). -/
theorem C5_amended_current_period (Y M D s pd : Int) (hv : ValidCivil Y M D s)
    (hpd1 : 1 ≤ pd) (hpd2 : pd ≤ 28) :
    (pd ≤ D →
      (currentPeriod (mkDate Y M D s) pd).1 = mkDate Y M pd 0
      ∧ (currentPeriod (mkDate Y M D s) pd).2 = mkDate Y (M + 1) pd 0 - 1
      ∧ tYear (currentPeriod (mkDate Y M D s) pd).1 = Y
      ∧ tMonth (currentPeriod (mkDate Y M D s) pd).1 = M)
  ∧ (D < pd →
      (currentPeriod (mkDate Y M D s) pd).1 = mkDate Y (M - 1) pd 0
      ∧ (currentPeriod (mkDate Y M D s) pd).2 = mkDate Y M pd 0 - 1
      ∧ tYear (currentPeriod (mkDate Y M D s) pd).1 = (if M = 1 then Y - 1 else Y)
      ∧ tMonth (currentPeriod (mkDate Y M D s) pd).1 = (if M = 1 then 12 else M - 1))
  ∧ tDay (currentPeriod (mkDate Y M D s) pd).1 = pd
  ∧ tSec (currentPeriod (mkDate Y M D s) pd).1 = 0
  ∧ (M = 12 → pd ≤ D →
      (currentPeriod (mkDate Y M D s) pd).2 = mkDate (Y + 1) 1 pd 0 - 1) := by
  obtain ⟨hm1, hm2, hd1, hd2, hs1, hs2⟩ := hv
  have hlenM := monthLen_bounds Y M hm1 hm2
  have hfldnow := mkDate_fields Y M D s ⟨hm1, hm2, hd1, hd2, hs1, hs2⟩
  by_cases hD : pd ≤ D
  · have h1 : currentPeriod (mkDate Y M D s) pd
        = (mkDate Y M pd 0, addDate (mkDate Y M pd 0) 0 1 0 - 1) := by
      unfold currentPeriod
      rw [hfldnow.1, hfldnow.2.1, hfldnow.2.2.1, if_pos hD]
    have hvps : ValidCivil Y M pd 0 :=
      ⟨hm1, hm2, hpd1, by omega, by norm_num, by norm_num⟩
    have hfldps := mkDate_fields Y M pd 0 hvps
    have hadd : addDate (mkDate Y M pd 0) 0 1 0 = mkDate Y (M + 1) pd 0 := by
      rw [addDate_mkDate Y M pd 0 0 1 0 hvps]
      norm_num
    refine ⟨fun _ => ⟨?_, ?_, ?_, ?_⟩, fun hlt => absurd hlt (by omega),
      ?_, ?_, fun h12 _ => ?_⟩
    · rw [h1]
    · rw [h1]
      dsimp only
      rw [hadd]
    · rw [h1]
      exact hfldps.1
    · rw [h1]
      exact hfldps.2.1
    · rw [h1]
      exact hfldps.2.2.1
    · rw [h1]
      exact hfldps.2.2.2
    · rw [h1]
      dsimp only
      rw [hadd]
      subst h12
      have hcong : normYM Y (12 + 1) = normYM (Y + 1) 1 := by
        unfold normYM
        refine Prod.ext ?_ ?_ <;> simp <;> omega
      rw [mkDate_congr _ _ _ _ pd 0 hcong]
  · have h1 : currentPeriod (mkDate Y M D s) pd
        = (mkDate Y (M - 1) pd 0, addDate (mkDate Y (M - 1) pd 0) 0 1 0 - 1) := by
      unfold currentPeriod
      rw [hfldnow.1, hfldnow.2.1, hfldnow.2.2.1, if_neg hD]
    have hspm := normYM_spec Y (M - 1)
    have hlenm := monthLen_bounds (normYM Y (M - 1)).1 (normYM Y (M - 1)).2
      hspm.1 hspm.2.1
    have hfldps := mkDate_fields_norm Y (M - 1) pd 0 (by norm_num) (by norm_num)
      hpd1 (by omega)
    have haddps : addDate (mkDate Y (M - 1) pd 0) 0 1 0 = mkDate Y M pd 0 := by
      unfold addDate
      rw [hfldps.1, hfldps.2.1, hfldps.2.2.1, hfldps.2.2.2]
      rw [add_zero, add_zero]
      have hcong : normYM (normYM Y (M - 1)).1 ((normYM Y (M - 1)).2 + 1)
          = normYM Y M := by
        rw [normYM_add Y (M - 1) 1, show M - 1 + 1 = M from by ring]
      rw [mkDate_congr _ _ _ _ pd 0 hcong]
    have hnorm : normYM Y (M - 1)
        = (if M = 1 then Y - 1 else Y, if M = 1 then 12 else M - 1) := by
      by_cases hM1 : M = 1
      · subst hM1
        norm_num
        unfold normYM
        refine Prod.ext ?_ ?_ <;> simp <;> omega
      · rw [if_neg hM1, if_neg hM1]
        exact normYM_id Y (M - 1) (by omega) (by omega)
    refine ⟨fun hge => absurd hge (by omega), fun _ => ⟨?_, ?_, ?_, ?_⟩,
      ?_, ?_, fun h12 hge => absurd hge (by omega)⟩
    · rw [h1]
    · rw [h1]
      dsimp only
      rw [haddps]
    · rw [h1]
      dsimp only
      rw [hfldps.1, hnorm]
    · rw [h1]
      dsimp only
      rw [hfldps.2.1, hnorm]
    · rw [h1]
      exact hfldps.2.2.1
    · rw [h1]
      exact hfldps.2.2.2

theorem C5_amended_current_period_witness :
    (currentPeriod (mkDate 2024 4 10 0) 16).1 = mkDate 2024 3 16 0
  ∧ (currentPeriod (mkDate 2024 4 20 0) 16).1 = mkDate 2024 4 16 0
  ∧ (currentPeriod (mkDate 2024 4 20 0) 16).2 = mkDate 2024 5 16 0 - 1
  ∧ (currentPeriod (mkDate 2024 12 20 0) 16).2 = mkDate 2025 1 16 0 - 1 := by
  refine ⟨?_, ?_, ?_, ?_⟩
  · exact ((C5_amended_current_period 2024 4 10 0 16 (by decide) (by decide)
      (by decide)).2.1 (by decide)).1
  · exact ((C5_amended_current_period 2024 4 20 0 16 (by decide) (by decide)
      (by decide)).1 (by decide)).1
  · exact ((C5_amended_current_period 2024 4 20 0 16 (by decide) (by decide)
      (by decide)).1 (by decide)).2.1
  · exact (C5_amended_current_period 2024 12 20 0 16 (by decide) (by decide)
      (by decide)).2.2.2.2 rfl (by decide)

/-- The current period computed when the reference day has reached the pay
date (the anchor is the reference month itself). -/
theorem currentPeriod_ge_eq (Y M D s pd : Int) (hv : ValidCivil Y M D s)
    (hpd1 : 1 ≤ pd) (hpd2 : pd ≤ 28) (hD : pd ≤ D) :
    currentPeriod (mkDate Y M D s) pd
      = (mkDate Y M pd 0, mkDate Y (M + 1) pd 0 - 1) := by
  obtain ⟨hm1, hm2, hd1, hd2, hs1, hs2⟩ := hv
  have hfldnow := mkDate_fields Y M D s ⟨hm1, hm2, hd1, hd2, hs1, hs2⟩
  have hlenM := monthLen_bounds Y M hm1 hm2
  have hvps : ValidCivil Y M pd 0 :=
    ⟨hm1, hm2, hpd1, by omega, by norm_num, by norm_num⟩
  have hadd : addDate (mkDate Y M pd 0) 0 1 0 = mkDate Y (M + 1) pd 0 := by
    rw [addDate_mkDate Y M pd 0 0 1 0 hvps]
    norm_num
  unfold currentPeriod
  rw [hfldnow.1, hfldnow.2.1, hfldnow.2.2.1, if_pos hD]
  dsimp only
  rw [hadd]

/-- **C3 (counterexample)** — At reference instant 2024-04-10 00:00:00 with
payDateDay = 16, the reference day (10) is before the pay date, so the
current period is [2024-03-16, 2024-04-16); but the first window period is
anchored one month after the reference month and starts 2024-05-16,
so the period [2024-04-16, 2024-05-16) is skipped: the first window's start
is neither the current period's end nor the second after it, refuting that
the pass processes the current period and the 11 periods immediately
following it. -/
theorem C3_counterexample_gap_after_current :
    (currentPeriod (mkDate 2024 4 10 0) 16).2 + 1
      ≠ windowStart (mkDate 2024 4 10 0) 16 1
  ∧ (currentPeriod (mkDate 2024 4 10 0) 16).2
      ≠ windowStart (mkDate 2024 4 10 0) 16 1 := by
  refine ⟨?_, ?_⟩ <;> decide

/-- **C3 (amended)** — When the reference day-of-month has reached the pay
date (`payDateDay ≤ D`, with `payDateDay ≥ 1` and `D ≤ 28` so month
arithmetic carries no day overflow), the 12 periods of one Window Driver
pass are the current period (anchored at the reference month) and the 11
immediately following months' periods: window `i` runs from payDateDay of
month `M+i` to payDateDay of month `M+i+1` minus one second, consecutive
periods are contiguous (each period's start is one second after the previous
period's end), and each period is at least 28 days long, so the periods are
pairwise non-overlapping.  (When the reference day is before the pay date
the pass instead skips the period following the current one — see the
counterexample.) -/
theorem C3_amended_window_pass_periods (Y M D s pd : Int) (hv : ValidCivil Y M D s)
    (hpd1 : 1 ≤ pd) (hpdD : pd ≤ D) (hD : D ≤ 28) :
    (currentPeriod (mkDate Y M D s) pd).1 = mkDate Y M pd 0
  ∧ (currentPeriod (mkDate Y M D s) pd).2 + 1 = mkDate Y (M + 1) pd 0
  ∧ (∀ i : Int, 1 ≤ i → i ≤ 11 →
      windowStart (mkDate Y M D s) pd i = mkDate Y (M + i) pd 0
      ∧ windowEnd (mkDate Y M D s) pd i + 1 = mkDate Y (M + i + 1) pd 0)
  ∧ (∀ i : Int, mkDate Y (M + i) pd 0 + 86400 * 28 ≤ mkDate Y (M + i + 1) pd 0) := by
  have hcur := currentPeriod_ge_eq Y M D s pd hv hpd1 (by omega) hpdD
  refine ⟨by rw [hcur], ?_, fun i h1 h11 => ?_, fun i => ?_⟩
  · rw [hcur]
    dsimp only
    omega
  · obtain ⟨hws, hwe⟩ := window_geometry Y M D s pd i hv hD
    exact ⟨hws, by rw [hwe]; omega⟩
  · have hstep := mkDate_month_step Y (M + i) pd 0
    have hsp := normYM_spec Y (M + i)
    have hlen := monthLen_bounds (normYM Y (M + i)).1 (normYM Y (M + i)).2
      hsp.1 hsp.2.1
    omega

theorem C3_amended_window_pass_periods_witness :
    (currentPeriod (mkDate 2024 2 20 0) 16).1 = mkDate 2024 2 16 0
  ∧ windowStart (mkDate 2024 2 20 0) 16 5 = mkDate 2024 7 16 0
  ∧ windowEnd (mkDate 2024 2 20 0) 16 5 + 1 = mkDate 2024 8 16 0 := by
  have h := C3_amended_window_pass_periods 2024 2 20 0 16 (by decide) (by decide)
    (by decide) (by decide)
  exact ⟨h.1, (h.2.2.1 5 (by norm_num) (by norm_num)).1,
    (h.2.2.1 5 (by norm_num) (by norm_num)).2⟩

/-- **C4** — The aggregation lower bound of `calculateTotalPayments` is the
clamp `max(nominal start, now)`: (i) the clamp equals that max; (ii) a
failure-free aggregation sums exactly the "Payment"-tagged events between
the clamped start and the period end; (iii) every event the aggregation
query returns is dated at or after `max(nominal start, now)` — never
strictly before "now"; and (iv) for every future window pass (offset
`i ≥ 1` from a valid reference instant) the nominal window start is
strictly after "now", so the clamp is the identity there and those passes
aggregate their full nominal period. -/
theorem C4_live_clamp_excludes_past :
    (∀ startDate now : Int, effectiveStart startDate now = max startDate now)
  ∧ (∀ now startDate endDate : Int, ∀ st : Store,
      calculateTotalPayments noFault now startDate endDate st
        = some (rangeTotal now startDate endDate st, bumpQ st))
  ∧ (∀ now startDate endDate : Int, ∀ st : Store, ∀ e : GEvent,
      e ∈ st.events.filter (fun e =>
        containsTag ("Payment".toList) e.summary &&
          (decide (effectiveStart startDate now ≤ e.start)
            && decide (e.start ≤ endDate))) →
      max startDate now ≤ e.start ∧ e.start ≤ endDate)
  ∧ (∀ Y M D s pd i : Int, ValidCivil Y M D s → 1 ≤ pd → 1 ≤ i →
      mkDate Y M D s < windowStart (mkDate Y M D s) pd i
      ∧ effectiveStart (windowStart (mkDate Y M D s) pd i) (mkDate Y M D s)
          = windowStart (mkDate Y M D s) pd i) := by
  refine ⟨?_, ?_, ?_, ?_⟩
  · intro sd now
    unfold effectiveStart
    split
    · rename_i h
      exact (max_eq_right (le_of_lt h)).symm
    · rename_i h
      exact (max_eq_left (by omega)).symm
  · exact fun now sd ed st => calcTotal_noFault now sd ed st
  · intro now sd ed st e he
    rw [List.mem_filter] at he
    have h2 := he.2
    simp only [Bool.and_eq_true, decide_eq_true_eq] at h2
    obtain ⟨-, h3, h4⟩ := h2
    refine ⟨?_, h4⟩
    unfold effectiveStart at h3
    revert h3
    split
    · rename_i hlt
      intro h3
      rw [max_eq_right (le_of_lt hlt)]
      exact h3
    · rename_i hge
      intro h3
      rw [max_eq_left (by omega)]
      exact h3
  · intro Y M D s pd i hv hpd hi
    have hlt : mkDate Y M D s < windowStart (mkDate Y M D s) pd i := by
      rcases windowStart_cases Y M D s pd i hv with h | h
      · rw [h]
        exact mkDate_lt_future Y M D s pd i hv hpd hi
      · rw [h, show M + i + 1 = M + (i + 1) from by ring]
        exact mkDate_lt_future Y M D s pd (i + 1) hv hpd (by omega)
    refine ⟨hlt, ?_⟩
    unfold effectiveStart
    rw [if_neg (by omega)]

theorem C4_live_clamp_excludes_past_witness :
    effectiveStart 5 10 = max 5 10
  ∧ mkDate 2024 3 31 0 < windowStart (mkDate 2024 3 31 0) 1 1
  ∧ effectiveStart (windowStart (mkDate 2024 3 31 0) 1 1) (mkDate 2024 3 31 0)
      = windowStart (mkDate 2024 3 31 0) 1 1 :=
  ⟨C4_live_clamp_excludes_past.1 5 10,
    (C4_live_clamp_excludes_past.2.2.2 2024 3 31 0 1 1 (by decide) (by decide)
      (by decide)).1,
    (C4_live_clamp_excludes_past.2.2.2 2024 3 31 0 1 1 (by decide) (by decide)
      (by decide)).2⟩


/-! ## Binary64 accumulation (`var total float64`, `total += amount`) -/


/-- Round to nearest integer, ties to even. -/
def roundHalfEven (x : ℚ) : ℤ :=
  let f := ⌊x⌋
  if x - f < 1/2 then f
  else if 1/2 < x - f then f + 1
  else if f % 2 = 0 then f else f + 1

/-- Round a rational to the nearest IEEE-754 binary64 value, ties to even —
the rounding Go applies to every `float64` operation result
(`strconv.ParseFloat` and `+`).  Faithful on the binary64 normal range
(2^-1022 ≤ |q| < 2^1024), where every value of this development lies;
overflow to infinity and subnormal granularity are outside the model. -/
def roundB64 (q : ℚ) : ℚ :=
  if q = 0 then 0
  else if 0 < q then
    ((roundHalfEven (q * (2:ℚ) ^ ((52:ℤ) - Int.log 2 q)) : ℚ)) * (2:ℚ) ^ (Int.log 2 q - 52)
  else
    -(((roundHalfEven ((-q) * (2:ℚ) ^ ((52:ℤ) - Int.log 2 (-q))) : ℚ))
        * (2:ℚ) ^ (Int.log 2 (-q) - 52))

theorem intLog_pin (r : ℚ) (l : ℤ) (hr : 0 < r)
    (h1 : (2:ℚ) ^ l ≤ r) (h2 : r < (2:ℚ) ^ (l + 1)) : Int.log 2 r = l := by
  have hc : ((2:ℕ):ℚ) = (2:ℚ) := by norm_num
  have ha : l ≤ Int.log 2 r := by
    rw [← Int.zpow_le_iff_le_log (by norm_num) hr, hc]
    exact h1
  have hb : Int.log 2 r < l + 1 := by
    rw [← Int.lt_zpow_iff_log_lt (by norm_num) hr, hc]
    exact h2
  omega

theorem roundHalfEven_low (x : ℚ) (f : ℤ) (hf : ⌊x⌋ = f) (h : x - f < 1/2) :
    roundHalfEven x = f := by
  unfold roundHalfEven
  rw [hf, if_pos h]

theorem roundHalfEven_high (x : ℚ) (f : ℤ) (hf : ⌊x⌋ = f) (h : 1/2 < x - f) :
    roundHalfEven x = f + 1 := by
  unfold roundHalfEven
  rw [hf, if_neg (by linarith), if_pos h]

theorem roundHalfEven_tie (x : ℚ) (f : ℤ) (hf : ⌊x⌋ = f) (h : x - f = 1/2) :
    roundHalfEven x = (if f % 2 = 0 then f else f + 1) := by
  unfold roundHalfEven
  rw [hf, if_neg (by rw [h]; norm_num), if_neg (by rw [h]; norm_num)]

theorem roundB64_eval (q : ℚ) (l m : ℤ) (hq : 0 < q)
    (hl1 : (2:ℚ) ^ l ≤ q) (hl2 : q < (2:ℚ) ^ (l + 1))
    (hm : roundHalfEven (q * (2:ℚ) ^ ((52:ℤ) - l)) = m) :
    roundB64 q = (m : ℚ) * (2:ℚ) ^ (l - 52) := by
  have hlog := intLog_pin q l hq hl1 hl2
  unfold roundB64
  rw [if_neg (by linarith), if_pos hq, hlog, hm]

-- sample concrete evaluations
example : roundB64 (1/10) = (7205759403792794 : ℚ) * (2:ℚ) ^ (-(56:ℤ)) := by
  have h := roundB64_eval (1/10) (-4) 7205759403792794 (by norm_num) ?_ ?_ ?_
  · rw [h]
    norm_num
  · norm_num
  · norm_num
  · have hx : (1/10 : ℚ) * (2:ℚ) ^ ((52:ℤ) - (-4)) = ((72057594037927936 : ℤ) : ℚ) / ((10:ℕ) : ℚ) := by
      norm_num
    rw [hx]
    have hf : ⌊((72057594037927936 : ℤ) : ℚ) / ((10:ℕ) : ℚ)⌋ = 7205759403792793 := by
      rw [Rat.floor_intCast_div_natCast]
      decide
    apply roundHalfEven_high _ _ hf
    norm_num

/-- `float64` addition: the exact sum rounded back to binary64. -/
def flAdd (a b : ℚ) : ℚ := roundB64 (a + b)

theorem roundB64_tenth : roundB64 (1/10) = (7205759403792794 : ℚ) * (2:ℚ) ^ (-(56:ℤ)) := by
  have h := roundB64_eval (1/10) (-4) 7205759403792794 (by norm_num) (by norm_num)
    (by norm_num) ?_
  · rw [h]; norm_num
  · have hx : (1/10 : ℚ) * (2:ℚ) ^ ((52:ℤ) - (-4))
        = ((72057594037927936 : ℤ) : ℚ) / ((10:ℕ) : ℚ) := by norm_num
    rw [hx]
    refine roundHalfEven_high _ 7205759403792793 ?_ ?_
    · rw [Rat.floor_intCast_div_natCast]; decide
    · norm_num

theorem roundB64_fifth : roundB64 (1/5) = (7205759403792794 : ℚ) * (2:ℚ) ^ (-(55:ℤ)) := by
  have h := roundB64_eval (1/5) (-3) 7205759403792794 (by norm_num) (by norm_num)
    (by norm_num) ?_
  · rw [h]; norm_num
  · have hx : (1/5 : ℚ) * (2:ℚ) ^ ((52:ℤ) - (-3))
        = ((36028797018963968 : ℤ) : ℚ) / ((5:ℕ) : ℚ) := by norm_num
    rw [hx]
    refine roundHalfEven_high _ 7205759403792793 ?_ ?_
    · rw [Rat.floor_intCast_div_natCast]; decide
    · norm_num

theorem roundB64_threeTenths : roundB64 (3/10) = (5404319552844595 : ℚ) * (2:ℚ) ^ (-(54:ℤ)) := by
  have h := roundB64_eval (3/10) (-2) 5404319552844595 (by norm_num) (by norm_num)
    (by norm_num) ?_
  · rw [h]; norm_num
  · have hx : (3/10 : ℚ) * (2:ℚ) ^ ((52:ℤ) - (-2))
        = ((54043195528445952 : ℤ) : ℚ) / ((10:ℕ) : ℚ) := by norm_num
    rw [hx]
    refine roundHalfEven_low _ 5404319552844595 ?_ ?_
    · rw [Rat.floor_intCast_div_natCast]; decide
    · norm_num

theorem roundB64_dbl01_fix : roundB64 ((7205759403792794 : ℚ) * (2:ℚ) ^ (-(56:ℤ)))
    = (7205759403792794 : ℚ) * (2:ℚ) ^ (-(56:ℤ)) := by
  have h := roundB64_eval ((7205759403792794 : ℚ) * (2:ℚ) ^ (-(56:ℤ))) (-4) 7205759403792794 (by norm_num) (by norm_num)
    (by norm_num) ?_
  · rw [h]; norm_num
  · have hx : (7205759403792794 : ℚ) * (2:ℚ) ^ (-(56:ℤ)) * (2:ℚ) ^ ((52:ℤ) - (-4))
        = ((7205759403792794 : ℤ) : ℚ) := by norm_num
    rw [hx]
    refine roundHalfEven_low _ 7205759403792794 ?_ ?_
    · exact Int.floor_intCast _
    · norm_num

theorem roundB64_dbl01_add_dbl02 : roundB64 ((21617278211378382 : ℚ) * (2:ℚ) ^ (-(56:ℤ)))
    = (5404319552844596 : ℚ) * (2:ℚ) ^ (-(54:ℤ)) := by
  have h := roundB64_eval ((21617278211378382 : ℚ) * (2:ℚ) ^ (-(56:ℤ))) (-2) 5404319552844596 (by norm_num) (by norm_num)
    (by norm_num) ?_
  · rw [h]; norm_num
  · have hx : (21617278211378382 : ℚ) * (2:ℚ) ^ (-(56:ℤ)) * (2:ℚ) ^ ((52:ℤ) - (-2))
        = ((21617278211378382 : ℤ) : ℚ) / ((4:ℕ) : ℚ) := by norm_num
    rw [hx]
    have hf : ⌊((21617278211378382 : ℤ) : ℚ) / ((4:ℕ) : ℚ)⌋ = 5404319552844595 := by
      rw [Rat.floor_intCast_div_natCast]; decide
    rw [roundHalfEven_tie _ 5404319552844595 hf (by norm_num)]
    norm_num

theorem roundB64_dbl0102_add_dbl03 : roundB64 ((10808639105689191 : ℚ) * (2:ℚ) ^ (-(54:ℤ)))
    = (5404319552844596 : ℚ) * (2:ℚ) ^ (-(53:ℤ)) := by
  have h := roundB64_eval ((10808639105689191 : ℚ) * (2:ℚ) ^ (-(54:ℤ))) (-1) 5404319552844596 (by norm_num) (by norm_num)
    (by norm_num) ?_
  · rw [h]; norm_num
  · have hx : (10808639105689191 : ℚ) * (2:ℚ) ^ (-(54:ℤ)) * (2:ℚ) ^ ((52:ℤ) - (-1))
        = ((10808639105689191 : ℤ) : ℚ) / ((2:ℕ) : ℚ) := by norm_num
    rw [hx]
    have hf : ⌊((10808639105689191 : ℤ) : ℚ) / ((2:ℕ) : ℚ)⌋ = 5404319552844595 := by
      rw [Rat.floor_intCast_div_natCast]; decide
    rw [roundHalfEven_tie _ 5404319552844595 hf (by norm_num)]
    norm_num

theorem roundB64_dbl03_fix : roundB64 ((5404319552844595 : ℚ) * (2:ℚ) ^ (-(54:ℤ)))
    = (5404319552844595 : ℚ) * (2:ℚ) ^ (-(54:ℤ)) := by
  have h := roundB64_eval ((5404319552844595 : ℚ) * (2:ℚ) ^ (-(54:ℤ))) (-2) 5404319552844595 (by norm_num) (by norm_num)
    (by norm_num) ?_
  · rw [h]; norm_num
  · have hx : (5404319552844595 : ℚ) * (2:ℚ) ^ (-(54:ℤ)) * (2:ℚ) ^ ((52:ℤ) - (-2))
        = ((5404319552844595 : ℤ) : ℚ) := by norm_num
    rw [hx]
    refine roundHalfEven_low _ 5404319552844595 ?_ ?_
    · exact Int.floor_intCast _
    · norm_num

theorem roundB64_half_val : roundB64 ((1:ℚ)/2) = (4503599627370496 : ℚ) * (2:ℚ) ^ (-(53:ℤ)) := by
  have h := roundB64_eval ((1:ℚ)/2) (-1) 4503599627370496 (by norm_num) (by norm_num)
    (by norm_num) ?_
  · rw [h]; norm_num
  · have hx : (1:ℚ)/2 * (2:ℚ) ^ ((52:ℤ) - (-1)) = ((4503599627370496 : ℤ) : ℚ) := by
      norm_num
    rw [hx]
    refine roundHalfEven_low _ 4503599627370496 ?_ ?_
    · exact Int.floor_intCast _
    · norm_num

theorem roundB64_half_add_dbl01 : roundB64 ((43234556422756762 : ℚ) * (2:ℚ) ^ (-(56:ℤ)))
    = (5404319552844595 : ℚ) * (2:ℚ) ^ (-(53:ℤ)) := by
  have h := roundB64_eval ((43234556422756762 : ℚ) * (2:ℚ) ^ (-(56:ℤ))) (-1) 5404319552844595 (by norm_num) (by norm_num)
    (by norm_num) ?_
  · rw [h]; norm_num
  · have hx : (43234556422756762 : ℚ) * (2:ℚ) ^ (-(56:ℤ)) * (2:ℚ) ^ ((52:ℤ) - (-1))
        = ((43234556422756762 : ℤ) : ℚ) / ((8:ℕ) : ℚ) := by norm_num
    rw [hx]
    refine roundHalfEven_low _ 5404319552844595 ?_ ?_
    · rw [Rat.floor_intCast_div_natCast]; decide
    · norm_num

theorem flChain_fwd :
    flAdd (flAdd (flAdd 0 (roundB64 (1/10))) (roundB64 (1/5))) (roundB64 (3/10))
      = (5404319552844596 : ℚ) * (2:ℚ) ^ (-(53:ℤ)) := by
  rw [roundB64_tenth, roundB64_fifth, roundB64_threeTenths]
  unfold flAdd
  rw [show (0:ℚ) + (7205759403792794 : ℚ) * (2:ℚ) ^ (-(56:ℤ))
      = (7205759403792794 : ℚ) * (2:ℚ) ^ (-(56:ℤ)) from by norm_num, roundB64_dbl01_fix]
  rw [show (7205759403792794 : ℚ) * (2:ℚ) ^ (-(56:ℤ))
        + (7205759403792794 : ℚ) * (2:ℚ) ^ (-(55:ℤ))
      = (21617278211378382 : ℚ) * (2:ℚ) ^ (-(56:ℤ)) from by norm_num, roundB64_dbl01_add_dbl02]
  rw [show (5404319552844596 : ℚ) * (2:ℚ) ^ (-(54:ℤ))
        + (5404319552844595 : ℚ) * (2:ℚ) ^ (-(54:ℤ))
      = (10808639105689191 : ℚ) * (2:ℚ) ^ (-(54:ℤ)) from by norm_num, roundB64_dbl0102_add_dbl03]

theorem flChain_rev :
    flAdd (flAdd (flAdd 0 (roundB64 (3/10))) (roundB64 (1/5))) (roundB64 (1/10))
      = (5404319552844595 : ℚ) * (2:ℚ) ^ (-(53:ℤ)) := by
  rw [roundB64_tenth, roundB64_fifth, roundB64_threeTenths]
  unfold flAdd
  rw [show (0:ℚ) + (5404319552844595 : ℚ) * (2:ℚ) ^ (-(54:ℤ))
      = (5404319552844595 : ℚ) * (2:ℚ) ^ (-(54:ℤ)) from by norm_num, roundB64_dbl03_fix]
  rw [show (5404319552844595 : ℚ) * (2:ℚ) ^ (-(54:ℤ))
        + (7205759403792794 : ℚ) * (2:ℚ) ^ (-(55:ℤ))
      = (1:ℚ)/2 from by norm_num, roundB64_half_val]
  rw [show (4503599627370496 : ℚ) * (2:ℚ) ^ (-(53:ℤ))
        + (7205759403792794 : ℚ) * (2:ℚ) ^ (-(56:ℤ))
      = (43234556422756762 : ℚ) * (2:ℚ) ^ (-(56:ℤ)) from by norm_num, roundB64_half_add_dbl01]

theorem flTotals_differ :
    (5404319552844596 : ℚ) * (2:ℚ) ^ (-(53:ℤ)) ≠ (5404319552844595 : ℚ) * (2:ℚ) ^ (-(53:ℤ))
  ∧ (5404319552844596 : ℚ) * (2:ℚ) ^ (-(53:ℤ)) ≠ 6/10
  ∧ (5404319552844595 : ℚ) * (2:ℚ) ^ (-(53:ℤ)) ≠ 6/10 := by
  refine ⟨?_, ?_, ?_⟩
  · norm_num
  · norm_num
  · intro hEq
    have h2 : (5404319552844595 : ℚ) * (2:ℚ) ^ (-(53:ℤ)) * 2 ^ 53 = 6/10 * 2 ^ 53 := by
      rw [hEq]
    norm_num at h2

/-- One step of the `total += amount` loop of `calculateTotalPayments`
under `float64` semantics: the parsed decimal is rounded by `ParseFloat`,
then the addition result is rounded. -/
def flStep (acc : ℚ) (e : GEvent) : ℚ :=
  match parseAmountFromSummary e.summary with
  | some a => flAdd acc (roundB64 a)
  | none => acc

/-- The accumulation loop of `calculateTotalPayments` (lines 163-167) with
`float64` arithmetic. -/
def sumAmountsF (items : List GEvent) : ℚ := items.foldl flStep 0

/-- `calculateTotalPayments` with its `var total float64` accumulator
modelled faithfully (binary64) instead of exactly. -/
def calculateTotalPaymentsF (fs : FaultSpec) (now startDate endDate : Int)
    (st : Store) : Option (ℚ × Store) :=
  match queryEvents fs st ("Payment".toList)
      (some (effectiveStart startDate now, endDate)) with
  | none => none
  | some (items, st') => some (sumAmountsF items, st')

/-- The events a failure-free aggregation query returns. -/
def rangeItems (now lo hi : Int) (st : Store) : List GEvent :=
  st.events.filter (fun e =>
    containsTag ("Payment".toList) e.summary &&
      (decide (effectiveStart lo now ≤ e.start) && decide (e.start ≤ hi)))

theorem calcTotalF_noFault (now lo hi : Int) (st : Store) :
    calculateTotalPaymentsF noFault now lo hi st
      = some (sumAmountsF (rangeItems now lo hi st), bumpQ st) := rfl

theorem flStep_some (acc : ℚ) (e : GEvent) (a : ℚ)
    (h : parseAmountFromSummary e.summary = some a) :
    flStep acc e = flAdd acc (roundB64 a) := by
  unfold flStep
  rw [h]

theorem flStep_none (acc : ℚ) (e : GEvent)
    (h : parseAmountFromSummary e.summary = none) :
    flStep acc e = acc := by
  unfold flStep
  rw [h]

/-- Three cent-valued payment events (0.10, 0.20, 0.30) in ascending order. -/
def fpEvents : List GEvent :=
  [⟨1, "Payment £0.10".toList, 1, 1⟩,
   ⟨2, "Payment £0.20".toList, 2, 2⟩,
   ⟨3, "Payment £0.30".toList, 3, 3⟩]

def fpStoreA : Store := ⟨fpEvents, 4, 0, 0⟩

/-- The same three events in the reverse order. -/
def fpStoreB : Store :=
  ⟨[⟨3, "Payment £0.30".toList, 3, 3⟩,
    ⟨2, "Payment £0.20".toList, 2, 2⟩,
    ⟨1, "Payment £0.10".toList, 1, 1⟩], 4, 0, 0⟩

/-- The ascending store plus one payment-tagged event with no parseable
amount. -/
def fpStoreC : Store :=
  ⟨fpEvents ++ [⟨4, "Payment pending".toList, 4, 4⟩], 5, 0, 0⟩

theorem fpParse_tenth :
    parseAmountFromSummary ("Payment £0.10".toList) = some (1/10) := by
  rw [parseAmount_eq _ ("£0.10".toList) (by decide),
    show stripGlyphSep ("£0.10".toList) = "0.10".toList from by decide,
    parseDecimal_frac _ ("0".toList) ("10".toList)
      (by decide) (by decide) (by decide) (by decide) (by decide),
    show digitsValN ("0".toList) = 0 from by decide,
    show digitsValN ("10".toList) = 10 from by decide,
    show ("10".toList).length = 2 from by decide]
  norm_num

theorem fpParse_fifth :
    parseAmountFromSummary ("Payment £0.20".toList) = some (1/5) := by
  rw [parseAmount_eq _ ("£0.20".toList) (by decide),
    show stripGlyphSep ("£0.20".toList) = "0.20".toList from by decide,
    parseDecimal_frac _ ("0".toList) ("20".toList)
      (by decide) (by decide) (by decide) (by decide) (by decide),
    show digitsValN ("0".toList) = 0 from by decide,
    show digitsValN ("20".toList) = 20 from by decide,
    show ("20".toList).length = 2 from by decide]
  norm_num

theorem fpParse_threeTenths :
    parseAmountFromSummary ("Payment £0.30".toList) = some (3/10) := by
  rw [parseAmount_eq _ ("£0.30".toList) (by decide),
    show stripGlyphSep ("£0.30".toList) = "0.30".toList from by decide,
    parseDecimal_frac _ ("0".toList) ("30".toList)
      (by decide) (by decide) (by decide) (by decide) (by decide),
    show digitsValN ("0".toList) = 0 from by decide,
    show digitsValN ("30".toList) = 30 from by decide,
    show ("30".toList).length = 2 from by decide]
  norm_num

theorem fpParse_bad :
    parseAmountFromSummary ("Payment pending".toList) = none :=
  parseAmount_none _ (by decide)

theorem sumAmountsF_fwd :
    sumAmountsF fpEvents = (5404319552844596 : ℚ) * (2:ℚ) ^ (-(53:ℤ)) := by
  unfold sumAmountsF fpEvents
  simp only [List.foldl_cons, List.foldl_nil]
  rw [flStep_some _ _ (3/10) (by exact fpParse_threeTenths),
    flStep_some _ _ (1/5) (by exact fpParse_fifth),
    flStep_some _ _ (1/10) (by exact fpParse_tenth)]
  exact flChain_fwd

theorem sumAmountsF_rev :
    sumAmountsF fpStoreB.events = (5404319552844595 : ℚ) * (2:ℚ) ^ (-(53:ℤ)) := by
  unfold sumAmountsF fpStoreB
  simp only [List.foldl_cons, List.foldl_nil]
  rw [flStep_some _ _ (1/10) (by exact fpParse_tenth),
    flStep_some _ _ (1/5) (by exact fpParse_fifth),
    flStep_some _ _ (3/10) (by exact fpParse_threeTenths)]
  exact flChain_rev

theorem sumAmountsF_skip :
    sumAmountsF fpStoreC.events = (5404319552844596 : ℚ) * (2:ℚ) ^ (-(53:ℤ)) := by
  unfold sumAmountsF fpStoreC fpEvents
  simp only [List.cons_append, List.nil_append, List.foldl_cons, List.foldl_nil]
  rw [flStep_none _ _ (by exact fpParse_bad),
    flStep_some _ _ (3/10) (by exact fpParse_threeTenths),
    flStep_some _ _ (1/5) (by exact fpParse_fifth),
    flStep_some _ _ (1/10) (by exact fpParse_tenth)]
  exact flChain_fwd

theorem sumAmounts_exact_fwd : sumAmounts fpEvents = 6/10 := by
  unfold sumAmounts fpEvents
  simp only [List.foldl_cons, List.foldl_nil]
  rw [fpParse_tenth, fpParse_fifth, fpParse_threeTenths]
  norm_num

/-- **C7** — The spec requires the aggregated total to be the exact decimal
sum of the parsed amounts, exact to the cent and independent of summation
order; but `calculateTotalPayments` accumulates in a `float64` variable
(`total += amount`), whose round-to-nearest-even results depend on the
order and drift from the exact decimal value.  For the payments 0.10, 0.20,
0.30 (exact sum 0.60): accumulated in ascending order the float total is
5404319552844596·2⁻⁵³ ("0.6000000000000001"), in descending order
5404319552844595·2⁻⁵³ (the binary64 value just below 0.6); the two differ
from each other and both differ from the exact 6/10.  The part of the claim
that holds is proven too: an event without a recognizable amount contributes
zero and raises no error. -/
theorem C7_float64_accumulation_not_exact :
    calculateTotalPaymentsF noFault 0 0 100 fpStoreA
      = some ((5404319552844596 : ℚ) * (2:ℚ) ^ (-(53:ℤ)), bumpQ fpStoreA)
  ∧ calculateTotalPaymentsF noFault 0 0 100 fpStoreB
      = some ((5404319552844595 : ℚ) * (2:ℚ) ^ (-(53:ℤ)), bumpQ fpStoreB)
  ∧ (5404319552844596 : ℚ) * (2:ℚ) ^ (-(53:ℤ))
      ≠ (5404319552844595 : ℚ) * (2:ℚ) ^ (-(53:ℤ))
  ∧ (5404319552844596 : ℚ) * (2:ℚ) ^ (-(53:ℤ)) ≠ 6/10
  ∧ (5404319552844595 : ℚ) * (2:ℚ) ^ (-(53:ℤ)) ≠ 6/10
  ∧ sumAmounts fpEvents = 6/10
  ∧ calculateTotalPaymentsF noFault 0 0 100 fpStoreC
      = some ((5404319552844596 : ℚ) * (2:ℚ) ^ (-(53:ℤ)), bumpQ fpStoreC) := by
  refine ⟨?_, ?_, flTotals_differ.1, flTotals_differ.2.1, flTotals_differ.2.2,
    sumAmounts_exact_fwd, ?_⟩
  · rw [calcTotalF_noFault,
      show rangeItems 0 0 100 fpStoreA = fpEvents from by decide,
      sumAmountsF_fwd]
  · rw [calcTotalF_noFault,
      show rangeItems 0 0 100 fpStoreB = fpStoreB.events from by decide,
      sumAmountsF_rev]
  · rw [calcTotalF_noFault,
      show rangeItems 0 0 100 fpStoreC = fpStoreC.events from by decide,
      sumAmountsF_skip]

end PayTrack
